import Mathlib

/-!
# Verification of the CreateDb learning-roadmap pipeline

A shallow embedding, in Lean 4, of the HTML-to-hierarchy parsing, tagging,
search, hierarchy-reconstruction and rendering code of the repository
(`learning_roadmap.py`, `react_roadmap_parser.py`), together with theorems
settling the frozen claims C1..C10.

Modelling conventions, used throughout:
* Python lists become Lean `List`s, dictionaries with a fixed key set become
  structures; a dictionary key that may be absent becomes an `Option` field.
* Python strings become Lean `String`s.  `str.lower` is modelled by
  `pyLower` (per-character `Char.toLower`) and `str.strip` by `pyStrip`
  (drop whitespace at both ends), both defined below over the character
  list so that concrete strings evaluate in the kernel; every string
  constant appearing in the source and in the claims is ASCII or Korean,
  for which these agree with the Python originals.
* `list(set(xs))` is modelled by `List.dedup`.  Python's set iteration order
  is unspecified (hash-dependent); the model fixes one deduplication order,
  and every theorem that touches such a list only uses order-independent
  facts (membership and `Nodup`).
* BeautifulSoup documents are modelled by a rose tree of element and text
  nodes (`Dom`); the repository's code only ever walks the soup through
  `find`/`find_all`/`get_text`/children/siblings, all of which are defined
  below directly from their BeautifulSoup semantics.
* Exceptions: the only operations in the modelled code that can actually
  raise at runtime are tag-searches invoked on a text (`NavigableString`)
  child; each such point is modelled explicitly and the surrounding
  `try/except: continue` becomes the corresponding skip.  All modelled
  functions are total, which is exactly the "never throws to the caller"
  contract of the parser.
* Similarity scores (Python floats in `[0,1]`) are modelled as rationals;
  the search-pipeline claims only compare and maximise scores.
-/

namespace CreateDb

/-! ## Python-truthiness and set helpers -/

/-- `list(set(xs))` for string lists: deduplication.  Python's iteration
order over a set is unspecified; the model uses `List.dedup`. -/
def pySet (l : List String) : List String := l.dedup

/-- Truthiness of an optional Python list argument (`if xs:`): `None` and the
empty list are falsy. -/
def truthyList (o : Option (List String)) : Bool :=
  match o with
  | none => false
  | some l => !l.isEmpty

/-- `str.lower`, character by character.  (Python lowercases full Unicode;
`Char.toLower` lowercases ASCII, which agrees on every string the sources
and claims mention.) -/
def pyLower (s : String) : String := ⟨s.data.map Char.toLower⟩

/-- `str.strip()`: drop whitespace from both ends. -/
def pyStrip (s : String) : String :=
  ⟨((s.data.dropWhile Char.isWhitespace).reverse.dropWhile
      Char.isWhitespace).reverse⟩

/-- Substring test on character lists (the Python `in` operator on
strings, and `re.search` of a literal pattern). -/
def isSubstring (needle hay : List Char) : Bool :=
  (List.range (hay.length + 1)).any (fun i => needle.isPrefixOf (hay.drop i))

/-- Python `sub in s` for strings. -/
def pyIn (sub s : String) : Bool := isSubstring sub.data s.data

/-- Python slicing `s[:n]`. -/
def pyTake (s : String) (n : Nat) : String := ⟨s.data.take n⟩

/-! ## Decimal rendering of naturals

Python f-strings render loop indices in decimal (`f"{roadmap_id}_level_{i}"`).
`natStr` is that decimal rendering; the lemmas below (injectivity, and the
fact that no digit is an underscore) are what make the structural chunk
identifiers of the parser pairwise distinct. -/

/-- The decimal digit character for `n % 10`. -/
def digitChar (n : Nat) : Char :=
  match n with
  | 0 => '0' | 1 => '1' | 2 => '2' | 3 => '3' | 4 => '4'
  | 5 => '5' | 6 => '6' | 7 => '7' | 8 => '8' | _ => '9'

/-- Decimal digits of `n`, most significant first, prepended to `acc`.  The
first argument is recursion fuel (any value `≥ n` gives the decimal
rendering; the fuel keeps the definition structurally recursive, hence
kernel-computable). -/
def natDigitsF : Nat → Nat → List Char → List Char
  | 0, n, acc => digitChar n :: acc
  | fuel + 1, n, acc =>
    if n < 10 then digitChar n :: acc
    else natDigitsF fuel (n / 10) (digitChar (n % 10) :: acc)

/-- The fuel value is irrelevant once it is at least `n`. -/
theorem natDigitsF_fuel : ∀ (n f1 f2 : Nat), n ≤ f1 → n ≤ f2 →
    ∀ acc, natDigitsF f1 n acc = natDigitsF f2 n acc := by
  intro n
  induction n using Nat.strong_induction_on with
  | _ n ih =>
    intro f1 f2 h1 h2 acc
    by_cases hlt : n < 10
    · cases f1 <;> cases f2 <;> simp [natDigitsF, hlt]
    · have hdiv : n / 10 < n := Nat.div_lt_self (by omega) (by omega)
      cases f1 with
      | zero => omega
      | succ g1 =>
        cases f2 with
        | zero => omega
        | succ g2 =>
          simp only [natDigitsF, if_neg hlt]
          exact ih (n / 10) hdiv g1 g2 (by omega) (by omega) _

/-- Decimal digits of `n` prepended to `acc`. -/
def natDigits (n : Nat) (acc : List Char) : List Char := natDigitsF n n acc

/-- Decimal rendering of a natural (Python `f"{n}"`). -/
def natStr (n : Nat) : String := ⟨natDigits n []⟩

theorem natDigits_lt {n : Nat} (h : n < 10) (acc : List Char) :
    natDigits n acc = digitChar n :: acc := by
  unfold natDigits
  cases n with
  | zero => rfl
  | succ m => simp [natDigitsF, h]

theorem natDigits_ge {n : Nat} (h : ¬ n < 10) (acc : List Char) :
    natDigits n acc = natDigits (n / 10) (digitChar (n % 10) :: acc) := by
  unfold natDigits
  cases hn : n with
  | zero => omega
  | succ m =>
    have hdiv : (m + 1) / 10 < m + 1 := Nat.div_lt_self (by omega) (by omega)
    rw [natDigitsF]
    rw [if_neg (hn ▸ h)]
    exact natDigitsF_fuel ((m + 1) / 10) m ((m + 1) / 10) (by omega)
      (le_refl _) _

theorem natDigits_eq_append (n : Nat) (acc : List Char) :
    natDigits n acc = natDigits n [] ++ acc := by
  induction n using Nat.strong_induction_on generalizing acc with
  | _ n ih =>
    by_cases h : n < 10
    · rw [natDigits_lt h, natDigits_lt h]
      simp
    · have hd : n / 10 < n := Nat.div_lt_self (by omega) (by omega)
      rw [natDigits_ge h, natDigits_ge h,
        ih _ hd (digitChar (n % 10) :: acc), ih _ hd (digitChar (n % 10) :: [])]
      simp

/-- Decimal value of a digit string (used only to invert `natDigits`). -/
def digitsVal (l : List Char) : Nat :=
  l.foldl (fun a c => 10 * a + (c.toNat - 48)) 0

theorem digitsVal_append_singleton (l : List Char) (c : Char) :
    digitsVal (l ++ [c]) = 10 * digitsVal l + (c.toNat - 48) := by
  simp [digitsVal, List.foldl_append]

theorem digitChar_toNat (n : Nat) (h : n < 10) :
    (digitChar n).toNat - 48 = n := by
  interval_cases n <;> decide

theorem digitsVal_natDigits (n : Nat) : digitsVal (natDigits n []) = n := by
  induction n using Nat.strong_induction_on with
  | _ n ih =>
    by_cases h : n < 10
    · rw [natDigits_lt h]
      simpa [digitsVal] using digitChar_toNat n h
    · have hd : n / 10 < n := Nat.div_lt_self (by omega) (by omega)
      rw [natDigits_ge h, natDigits_eq_append]
      have : digitChar (n % 10) :: [] = [digitChar (n % 10)] := rfl
      rw [this, digitsVal_append_singleton, ih _ hd,
        digitChar_toNat _ (Nat.mod_lt _ (by omega))]
      omega

theorem natStr_injective : Function.Injective natStr := by
  intro m n h
  have : natDigits m [] = natDigits n [] := congrArg String.data h
  have := congrArg digitsVal this
  rwa [digitsVal_natDigits, digitsVal_natDigits] at this

theorem digitChar_isDigit (n : Nat) : (digitChar n).isDigit = true := by
  match n with
  | 0 | 1 | 2 | 3 | 4 | 5 | 6 | 7 | 8 => decide
  | (k + 9) => show ('9').isDigit = true; decide

theorem natDigits_mem_isDigit (n : Nat) :
    ∀ c ∈ natDigits n [], c.isDigit = true := by
  induction n using Nat.strong_induction_on with
  | _ n ih =>
    intro c hc
    by_cases h : n < 10
    · rw [natDigits_lt h] at hc
      simp only [List.mem_singleton] at hc
      subst hc; exact digitChar_isDigit n
    · rw [natDigits_ge h, natDigits_eq_append] at hc
      have hd : n / 10 < n := Nat.div_lt_self (by omega) (by omega)
      rcases List.mem_append.1 hc with h1 | h1
      · exact ih _ hd c h1
      · simp only [List.mem_cons, List.not_mem_nil, or_false] at h1
        subst h1; exact digitChar_isDigit _

theorem natDigits_ne_nil (n : Nat) : natDigits n [] ≠ [] := by
  by_cases h : n < 10
  · rw [natDigits_lt h]; simp
  · rw [natDigits_ge h, natDigits_eq_append]; simp

theorem underscore_not_mem_natDigits (n : Nat) : '_' ∉ natDigits n [] := by
  intro h
  have := natDigits_mem_isDigit n '_' h
  simp [Char.isDigit] at this

/-- Splitting at an underscore separator is unambiguous when neither prefix
contains an underscore. -/
theorem underscore_split {a b c d : List Char}
    (ha : '_' ∉ a) (hc : '_' ∉ c)
    (h : a ++ '_' :: b = c ++ '_' :: d) : a = c ∧ b = d := by
  induction a generalizing c with
  | nil =>
    cases c with
    | nil => simpa using h
    | cons y ys =>
      simp only [List.nil_append, List.cons_append, List.cons.injEq] at h
      exact absurd (h.1 ▸ List.mem_cons_self y ys) (h.1 ▸ hc)
  | cons x xs ih =>
    cases c with
    | nil =>
      simp only [List.cons_append, List.nil_append, List.cons.injEq] at h
      exact absurd (h.1 ▸ List.mem_cons_self x xs) (h.1 ▸ ha)
    | cons y ys =>
      simp only [List.cons_append, List.cons.injEq] at h
      obtain ⟨rfl, h2⟩ := h
      have := ih (fun hm => ha (List.mem_cons_of_mem _ hm))
        (fun hm => hc (List.mem_cons_of_mem _ hm)) h2
      exact ⟨by rw [this.1], this.2⟩

theorem natDigits_inj {m n : Nat} (h : natDigits m [] = natDigits n []) :
    m = n := by
  have := congrArg digitsVal h
  rwa [digitsVal_natDigits, digitsVal_natDigits] at this

theorem string_app_cancel {s a b : String} (h : s ++ a = s ++ b) : a = b := by
  have hd := congrArg String.data h
  rw [String.data_append, String.data_append] at hd
  have h2 := List.append_cancel_left hd
  cases a; cases b
  exact congrArg String.mk h2

/-! ## Structural chunk identifiers

The parser derives chunk ids from the source-document id and the structural
path: `f"{roadmap_id}_level_{i}"`, `f"{roadmap_id}_branch_{i}_{j}"`,
`f"{roadmap_id}_sub_{i}_{j}_{k}"` in the structured pass and
`f"{roadmap_id}_chunk_{i}"` in the basic pass. -/

def levelId (rid : String) (i : Nat) : String :=
  rid ++ "_level_" ++ natStr i

def branchId (rid : String) (i j : Nat) : String :=
  rid ++ "_branch_" ++ natStr i ++ "_" ++ natStr j

def subId (rid : String) (i j k : Nat) : String :=
  rid ++ "_sub_" ++ natStr i ++ "_" ++ natStr j ++ "_" ++ natStr k

def chunkId (rid : String) (i : Nat) : String :=
  rid ++ "_chunk_" ++ natStr i

theorem levelId_data (rid : String) (i : Nat) :
    (levelId rid i).data =
      rid.data ++ ('_' :: 'l' :: 'e' :: 'v' :: 'e' :: 'l' :: '_' :: natDigits i []) := by
  simp only [levelId, String.data_append, List.append_assoc]
  rfl

theorem branchId_data (rid : String) (i j : Nat) :
    (branchId rid i j).data =
      rid.data ++ ('_' :: 'b' :: 'r' :: 'a' :: 'n' :: 'c' :: 'h' :: '_' ::
        (natDigits i [] ++ '_' :: natDigits j [])) := by
  simp only [branchId, String.data_append, List.append_assoc]
  rfl

theorem subId_data (rid : String) (i j k : Nat) :
    (subId rid i j k).data =
      rid.data ++ ('_' :: 's' :: 'u' :: 'b' :: '_' ::
        (natDigits i [] ++ '_' :: (natDigits j [] ++ '_' :: natDigits k []))) := by
  simp only [subId, String.data_append, List.append_assoc]
  rfl

theorem chunkId_data (rid : String) (i : Nat) :
    (chunkId rid i).data =
      rid.data ++ ('_' :: 'c' :: 'h' :: 'u' :: 'n' :: 'k' :: '_' :: natDigits i []) := by
  simp only [chunkId, String.data_append, List.append_assoc]
  rfl

theorem levelId_inj {rid : String} {i i' : Nat}
    (h : levelId rid i = levelId rid i') : i = i' := by
  have hd := congrArg String.data h
  rw [levelId_data, levelId_data] at hd
  have h2 := List.append_cancel_left hd
  repeat injection h2 with _ h2
  exact natDigits_inj h2

theorem branchId_inj {rid : String} {i j i' j' : Nat}
    (h : branchId rid i j = branchId rid i' j') : i = i' ∧ j = j' := by
  have hd := congrArg String.data h
  rw [branchId_data, branchId_data] at hd
  have h2 := List.append_cancel_left hd
  repeat injection h2 with _ h2
  obtain ⟨e1, e2⟩ := underscore_split (underscore_not_mem_natDigits i)
    (underscore_not_mem_natDigits i') h2
  exact ⟨natDigits_inj e1, natDigits_inj e2⟩

theorem subId_inj {rid : String} {i j k i' j' k' : Nat}
    (h : subId rid i j k = subId rid i' j' k') : i = i' ∧ j = j' ∧ k = k' := by
  have hd := congrArg String.data h
  rw [subId_data, subId_data] at hd
  have h2 := List.append_cancel_left hd
  repeat injection h2 with _ h2
  obtain ⟨e1, e2⟩ := underscore_split (underscore_not_mem_natDigits i)
    (underscore_not_mem_natDigits i') h2
  obtain ⟨e3, e4⟩ := underscore_split (underscore_not_mem_natDigits j)
    (underscore_not_mem_natDigits j') e2
  exact ⟨natDigits_inj e1, natDigits_inj e3, natDigits_inj e4⟩

theorem chunkId_inj {rid : String} {i i' : Nat}
    (h : chunkId rid i = chunkId rid i') : i = i' := by
  have hd := congrArg String.data h
  rw [chunkId_data, chunkId_data] at hd
  have h2 := List.append_cancel_left hd
  repeat injection h2 with _ h2
  exact natDigits_inj h2

theorem levelId_ne_branchId (rid : String) (i i' j' : Nat) :
    levelId rid i ≠ branchId rid i' j' := by
  intro h
  have hd := congrArg String.data h
  rw [levelId_data, branchId_data] at hd
  have h2 := List.append_cancel_left hd
  injection h2 with _ h2
  injection h2 with h3 _
  exact absurd h3 (by decide)

theorem levelId_ne_subId (rid : String) (i i' j' k' : Nat) :
    levelId rid i ≠ subId rid i' j' k' := by
  intro h
  have hd := congrArg String.data h
  rw [levelId_data, subId_data] at hd
  have h2 := List.append_cancel_left hd
  injection h2 with _ h2
  injection h2 with h3 _
  exact absurd h3 (by decide)

theorem branchId_ne_subId (rid : String) (i j i' j' k' : Nat) :
    branchId rid i j ≠ subId rid i' j' k' := by
  intro h
  have hd := congrArg String.data h
  rw [branchId_data, subId_data] at hd
  have h2 := List.append_cancel_left hd
  injection h2 with _ h2
  injection h2 with h3 _
  exact absurd h3 (by decide)

/-! ## A small matcher for the fixed regular expressions of the source

Every regular expression in the repository is an alternation of literals
(keyword vocabularies, handled by `findVocab` below) or a fixed sequence of
literals, character classes, greedy character-class stars, one optional
character and at most one capture group (greedy class capture `([^.]*)` or
lazy any capture `(.*?)`).  `runPToks` interprets such a token sequence with
Python's backtracking order: alternatives and positions left to right,
greedy stars longest first, lazy capture shortest first.  All the source's
patterns carry `re.IGNORECASE`, so literals are matched case-insensitively;
`(.*?)` appears only under `re.DOTALL`, so the lazy capture consumes any
character. -/

/-- Case-insensitive prefix test on character lists. -/
def ciPrefix : List Char → List Char → Bool
  | [], _ => true
  | _ :: _, [] => false
  | p :: ps, c :: cs => (p.toLower = c.toLower) && ciPrefix ps cs

/-- One token of a compiled pattern. -/
inductive PTok where
  /-- a literal (matched case-insensitively, `re.IGNORECASE`) -/
  | lit (s : String)
  /-- one character of a class -/
  | cls (p : Char → Bool)
  /-- greedy star over a character class, with a minimum repetition count
  (`p*` is `star p 0`, `p+` is `star p 1`) -/
  | star (p : Char → Bool) (min : Nat)
  /-- greedy capture group over a character class (`([^.]*)` etc.) -/
  | cap (p : Char → Bool) (min : Nat)
  /-- optional single character, greedy (`c?`) -/
  | opt (c : Char)
  /-- the lazy capture group `(.*?)`: shortest first; the predicate is what
  `.` may match (everything under `re.DOTALL`, everything but a newline
  otherwise) -/
  | lazyCap (p : Char → Bool)

/-- Run a token sequence at the head of `l`.  Returns the capture-group text
and the number of characters consumed. -/
def runPToks : List PTok → List Char → Option (String × Nat)
  | [], _ => some ("", 0)
  | .lit s :: rest, l =>
    if ciPrefix s.data l then
      (runPToks rest (l.drop s.data.length)).map
        (fun r => (r.1, r.2 + s.data.length))
    else none
  | .cls p :: rest, l =>
    match l with
    | [] => none
    | c :: cs =>
      if p c then (runPToks rest cs).map (fun r => (r.1, r.2 + 1)) else none
  | .star p min :: rest, l =>
    let m := (l.takeWhile p).length
    if m < min then none
    else
      ((List.range (m + 1 - min)).map (fun d => m - d)).findSome? (fun k =>
        (runPToks rest (l.drop k)).map (fun r => (r.1, r.2 + k)))
  | .cap p min :: rest, l =>
    let m := (l.takeWhile p).length
    if m < min then none
    else
      ((List.range (m + 1 - min)).map (fun d => m - d)).findSome? (fun k =>
        (runPToks rest (l.drop k)).map (fun r => (⟨l.take k⟩, r.2 + k)))
  | .opt c :: rest, l =>
    match l with
    | c' :: cs =>
      if c' = c then
        match runPToks rest cs with
        | some r => some (r.1, r.2 + 1)
        | none => runPToks rest (c' :: cs)
      else runPToks rest (c' :: cs)
    | [] => runPToks rest []
  | .lazyCap p :: rest, l =>
    (List.range ((l.takeWhile p).length + 1)).findSome? (fun k =>
      (runPToks rest (l.drop k)).map (fun r => (⟨l.take k⟩, r.2 + k)))

/-- `re.findall`: scan left to right, emit the capture of each
non-overlapping match, resume after each match.  The first argument is
recursion fuel (initialised to the string length, which is adequate because
every step consumes at least one character; the fuel keeps the scanner
structurally recursive, hence kernel-computable).  Every pattern of the
source starts with a non-empty literal, so a match always consumes at least
one character; `max n 1` only certifies progress. -/
def reFindAllAux (toks : List PTok) : Nat → List Char → List String
  | 0, _ => []
  | _ + 1, [] => []
  | fuel + 1, c :: rest =>
    match runPToks toks (c :: rest) with
    | some (capture, n) =>
      capture :: reFindAllAux toks fuel ((c :: rest).drop (max n 1))
    | none => reFindAllAux toks fuel rest

def reFindAll (toks : List PTok) (s : String) : List String :=
  reFindAllAux toks s.data.length s.data

/-- `re.findall` for a pattern with no capture group: each element is the
whole matched text (`group(0)`). -/
def reFindAllWholeAux (toks : List PTok) : Nat → List Char → List String
  | 0, _ => []
  | _ + 1, [] => []
  | fuel + 1, c :: rest =>
    match runPToks toks (c :: rest) with
    | some (_, n) =>
      (⟨(c :: rest).take (max n 1)⟩ : String) ::
        reFindAllWholeAux toks fuel ((c :: rest).drop (max n 1))
    | none => reFindAllWholeAux toks fuel rest

def reFindAllWhole (toks : List PTok) (s : String) : List String :=
  reFindAllWholeAux toks s.data.length s.data

/-- `re.search`: capture of the leftmost match, if any. -/
def reSearch (toks : List PTok) (s : String) : Option String :=
  let rec go : List Char → Option String
    | [] => none
    | c :: rest =>
      match runPToks toks (c :: rest) with
      | some (capture, _) => some capture
      | none => go rest
  go s.data

/-- `re.sub(pattern, '', s)`: delete every non-overlapping match (fuel as
in `reFindAllAux`). -/
def reSubEmptyAux (toks : List PTok) : Nat → List Char → List Char
  | 0, _ => []
  | _ + 1, [] => []
  | fuel + 1, c :: rest =>
    match runPToks toks (c :: rest) with
    | some (_, n) => reSubEmptyAux toks fuel ((c :: rest).drop (max n 1))
    | none => c :: reSubEmptyAux toks fuel rest

def reSubEmpty (toks : List PTok) (s : String) : String :=
  ⟨reSubEmptyAux toks s.data.length s.data⟩

/-! ### Vocabulary patterns `\b(w1|w2|...)\b`

Python's `\w` is Unicode-aware; the model treats ASCII alphanumerics,
underscore and every non-ASCII character as word characters (the source's
vocabularies are pure ASCII, so this only affects boundaries adjacent to
non-ASCII punctuation). -/

def wordChar (c : Char) : Bool := c.isAlphanum || c = '_' || c.toNat ≥ 128

/-- Try each vocabulary word, in the order of the alternation, at the head
of `l`; the word must be followed by a word boundary. -/
def vocabMatchAt (vocab : List String) (l : List Char) : Option (String × Nat) :=
  vocab.findSome? (fun w =>
    if w.data.isEmpty then none
    else if ciPrefix w.data l then
      match (l.drop w.data.length).head? with
      | some c => if wordChar c then none else some (⟨l.take w.data.length⟩, w.data.length)
      | none => some (⟨l.take w.data.length⟩, w.data.length)
    else none)

def findVocabAux (vocab : List String) : Nat → Option Char → List Char → List String
  | 0, _, _ => []
  | _ + 1, _, [] => []
  | fuel + 1, prev, c :: rest =>
    if (match prev with | none => false | some p => wordChar p) then
      findVocabAux vocab fuel (some c) rest
    else
      match vocabMatchAt vocab (c :: rest) with
      | some (m, n) =>
        m :: findVocabAux vocab fuel (((c :: rest).take (max n 1)).getLast?)
          ((c :: rest).drop (max n 1))
      | none => findVocabAux vocab fuel (some c) rest

/-- `re.findall(r'\b(w1|w2|...)\b', s, re.IGNORECASE)`: matched words in
original case, in scan order (fuel as in `reFindAllAux`). -/
def findVocab (vocab : List String) (s : String) : List String :=
  findVocabAux vocab s.data.length none s.data

/-! ## Keyword / tool / resource-type / objective extraction
(learning_roadmap.py lines 148-151, 605-681) -/

/-- The fixed technology vocabulary of `extract_keywords` (line 150). -/
def tech_keywords_vocab : List String :=
  ["JavaScript", "Python", "React", "Node.js", "HTML", "CSS", "API",
   "Database", "TypeScript", "Vue", "Angular", "Django", "Flask", "Express",
   "MongoDB", "PostgreSQL", "MySQL", "Git", "Docker", "AWS", "Azure", "GCP"]

/-- `extract_keywords` (lines 148-151): vocabulary matches, lower-cased and
deduplicated. -/
def extract_keywords (content : String) : List String :=
  pySet ((findVocab tech_keywords_vocab content).map pyLower)

/-- The six tool-pattern vocabularies (lines 553-560 = 635-642). -/
def tool_vocab_groups : List (List String) :=
  [["vscode", "visual studio", "sublime", "atom", "webstorm", "intellij"],
   ["git", "github", "gitlab", "bitbucket"],
   ["docker", "kubernetes", "jenkins", "travis"],
   ["npm", "yarn", "webpack", "vite", "parcel"],
   ["react", "vue", "angular", "svelte"],
   ["node.js", "express", "django", "flask", "spring"]]

/-- `_extract_tools_from_text_helper` (lines 630-648): the six patterns
over the lower-cased text, concatenated and deduplicated. -/
def extract_tools_from_text (text : String) : List String :=
  pySet (tool_vocab_groups.flatMap (fun vocab => findVocab vocab (pyLower text)))

/-- `_determine_resource_type` (lines 667-681). -/
def determine_resource_type (url : String) : String :=
  let u := pyLower url
  if [".pdf", ".doc", ".docx"].any (fun e => pyIn e u) then "document"
  else if [".mp4", ".avi", ".mov", "youtube.com", "vimeo.com"].any
      (fun e => pyIn e u) then "video"
  else if [".jpg", ".png", ".gif"].any (fun e => pyIn e u) then "image"
  else if pyIn "github.com" u then "code"
  else if ["stackoverflow.com", "docs.", "tutorial"].any
      (fun e => pyIn e u) then "tutorial"
  else "link"

/-- The four learning-objective patterns (lines 592-597 = 654-659),
compiled to tokens.  `\s` is a whitespace class, `[:\s]` adds the colon,
`[어야]*` is a two-character class star, `한다?` an optional final
character, `([^.]*)` the greedy capture up to the next period. -/
def objective_patterns : List (List PTok) :=
  let ws : Char → Bool := Char.isWhitespace
  let colonWs : Char → Bool := fun c => c = ':' || c.isWhitespace
  let notDot : Char → Bool := fun c => c ≠ '.'
  let eoya : Char → Bool := fun c => c = '어' || c = '야'
  [[.lit "학습", .star ws 0, .lit "목표", .star colonWs 0, .cap notDot 0],
   [.lit "목표", .star colonWs 0, .cap notDot 0],
   [.lit "이해", .star ws 0, .lit "할", .star ws 0, .lit "수", .star ws 0,
    .lit "있", .star eoya 0, .star ws 0, .lit "한", .opt '다',
    .star colonWs 0, .cap notDot 0],
   [.lit "할", .star ws 0, .lit "수", .star ws 0,
    .lit "있", .star eoya 0, .star ws 0, .lit "한", .opt '다',
    .star colonWs 0, .cap notDot 0]]

/-- `_extract_learning_objectives_from_text_helper` (lines 650-665): the
four patterns' captures concatenated, no deduplication. -/
def extract_objectives_from_text (text : String) : List String :=
  objective_patterns.flatMap (fun p => reFindAll p text)

/-! ## Data model: `RoadmapChunk` (learning_roadmap.py lines 21-31)

The `metadata` dictionary of a chunk is modelled by the structure `Metadata`
whose fields are the keys the repository reads or writes (`section`, `level`,
`branch`, `sub`, `category`, `type`, `step_number`, `keywords`, `tools`,
`resources`, `learning_objectives`).  Keys not always present are `Option`s;
`keywords` is a plain list because the code only ever reads it with default
`[]` (`metadata.get("keywords", [])`), which identifies a missing key with an
empty list. -/

/-- One entry of `metadata["resources"]`: a `{url, title, type}` dictionary
(`_extract_resources`).  `title` is optional because
`convert_chunks_to_roadmap_data` distinguishes a missing `title` key
(`res.get("title", res.get("url"))`); a missing `url` key is identified with
`""` (both are falsy and the code only tests truthiness of `url`). -/
structure Resource where
  url : String
  title : Option String
  rtype : String
  deriving Repr, DecidableEq

/-- The recognised keys of a chunk's `metadata` dictionary. -/
structure Metadata where
  msection : Option String
  level : Option Nat
  branch : Option Nat
  msub : Option Nat
  category : Option String
  mtype : Option String
  step_number : Option Nat
  keywords : List String
  tools : List String
  resources : List Resource
  learning_objectives : List String
  deriving Repr, DecidableEq

/-- A metadata record with every optional key absent and every list empty. -/
def Metadata.empty : Metadata :=
  ⟨none, none, none, none, none, none, none, [], [], [], []⟩

/-- `RoadmapChunk` (learning_roadmap.py lines 21-31). -/
structure RoadmapChunk where
  id : String
  roadmap_id : String
  content : String
  html_fragment : String
  embedding : List ℚ
  chunk_index : Nat
  metadata : Metadata
  collection_tags : List String
  search_tags : List String
  deriving Repr, DecidableEq

/-! ## The document model

A BeautifulSoup document is a forest of element and text nodes.  Searching
(`find`, `find_all`) visits elements in document order (pre-order);
`find_all` on a tag searches its descendants, on the soup object the whole
forest.  An element's `class` attribute is BeautifulSoup's multi-valued
list; an absent attribute is the empty list (the code reads it with
`get('class', [])`).  Other attributes (`href`) are an association list. -/

mutual
inductive Dom where
  | elem (tag : String) (classes : List String)
      (attrs : List (String × String)) (children : DomList)
  | text (s : String)
inductive DomList where
  | nil
  | cons (head : Dom) (tail : DomList)
end

def DomList.toList : DomList → List Dom
  | .nil => []
  | .cons d l => d :: l.toList

def DomList.isEmpty : DomList → Bool
  | .nil => true
  | .cons _ _ => false

def DomList.ofList : List Dom → DomList
  | [] => .nil
  | d :: rest => .cons d (DomList.ofList rest)

/-- Element constructor taking the children as a plain list.  (`DomList` is
an inlined copy of `List Dom`; it keeps every document traversal
structurally recursive, hence kernel-computable.) -/
def Dom.el (tag : String) (classes : List String)
    (attrs : List (String × String)) (children : List Dom) : Dom :=
  .elem tag classes attrs (.ofList children)

/-- Children of a node (a text node has none). -/
def Dom.childrenList : Dom → List Dom
  | .elem _ _ _ cs => cs.toList
  | .text _ => []

/-- `tag.get('class', [])`. -/
def Dom.classesOf : Dom → List String
  | .elem _ cls _ _ => cls
  | .text _ => []

/-- The attribute association list of a node. -/
def Dom.attrsOf : Dom → List (String × String)
  | .elem _ _ attrs _ => attrs
  | .text _ => []

mutual
/-- `tag.get_text()`: concatenation of all text descendants in document
order. -/
def Dom.getText : Dom → String
  | .elem _ _ _ cs => cs.getText
  | .text s => s
def DomList.getText : DomList → String
  | .nil => ""
  | .cons d l => d.getText ++ l.getText
end

/-- `get_text()` of a forest. -/
def getTextList : List Dom → String
  | [] => ""
  | d :: rest => d.getText ++ getTextList rest

mutual
/-- All elements of a tree satisfying `p` (the tree itself included), in
document (pre-)order. -/
def findAllTree (p : Dom → Bool) : Dom → List Dom
  | .elem t cls attrs cs =>
    (if p (.elem t cls attrs cs) then [Dom.elem t cls attrs cs] else []) ++
      findAllDomList p cs
  | .text _ => []
def findAllDomList (p : Dom → Bool) : DomList → List Dom
  | .nil => []
  | .cons d l => findAllTree p d ++ findAllDomList p l
end

/-- All elements of a forest satisfying `p`, in document (pre-)order:
`find_all` applied to the soup object, or, on the children forest of a tag,
to the tag itself (which searches its descendants only). -/
def findAllList (p : Dom → Bool) : List Dom → List Dom
  | [] => []
  | d :: rest => findAllTree p d ++ findAllList p rest

/-- `find`: the first element in document order satisfying `p`. -/
def findFirstList (p : Dom → Bool) (l : List Dom) : Option Dom :=
  (findAllList p l).head?

/-- A name filter `find_all(names, ...)`: only elements whose tag is listed
match (text nodes never match a name search). -/
def tagIn (names : List String) : Dom → Bool
  | .elem t _ _ _ => names.contains t
  | .text _ => false

/-- `class_=re.compile(r'p1|p2|...')`: BeautifulSoup searches the regex
against each class value separately; for these alternation-of-literal
patterns that is a substring test per alternative. -/
def classRegexAny (pats : List String) (d : Dom) : Bool :=
  d.classesOf.any (fun c => pats.any (fun pat => pyIn pat c))

/-- `class_='name'`: exact match against one of the multi-valued classes. -/
def classExact (name : String) (d : Dom) : Bool :=
  d.classesOf.contains name

/-- `class_=True`: the element carries a class attribute (modelled as a
non-empty class list). -/
def hasClassAttr (d : Dom) : Bool := !d.classesOf.isEmpty

def Dom.isTextNode : Dom → Bool
  | .text _ => true
  | .elem _ _ _ _ => false

mutual
/-- Sibling lookup inside a tree, towards `headingSiblings`: for every
`h1`/`h2`/`h3` element, in document order, its first following sibling that
is a `div` or `section` element. -/
def hsTree : Dom → List Dom
  | .elem _ _ _ cs => hsDomList cs
  | .text _ => []
def hsDomList : DomList → List Dom
  | .nil => []
  | .cons d l =>
    (match d with
     | .elem t _ _ _ =>
       if ["h1", "h2", "h3"].contains t then
         (l.toList.find? (tagIn ["div", "section"])).toList
       else []
     | .text _ => []) ++ hsTree d ++ hsDomList l
end

/-- For every `h1`/`h2`/`h3` element of the forest, in document order, its
first following sibling that is a `div` or `section`
(`heading.find_next_sibling(['div', 'section'])`), when present —
parse_html_sections pattern 3 (lines 198-207). -/
def headingSiblings (l : List Dom) : List Dom :=
  hsDomList (.ofList l)

mutual
/-- `str(tag)`: serialize a node back to HTML.  (Attribute order is
approximated — the class attribute is rendered first; no claim inspects
these serialized fragments.) -/
def Dom.render : Dom → String
  | .text s => s
  | .elem t cls attrs cs =>
    "<" ++ t ++
      (if cls.isEmpty then ""
       else " class=\"" ++ String.intercalate " " cls ++ "\"") ++
      String.join (attrs.map (fun kv => " " ++ kv.1 ++ "=\"" ++ kv.2 ++ "\"")) ++
      ">" ++ cs.render ++ "</" ++ t ++ ">"
def DomList.render : DomList → String
  | .nil => ""
  | .cons d l => d.render ++ l.render
end

/-- `str(soup)` of a forest. -/
def domRenderList : List Dom → String
  | [] => ""
  | d :: rest => d.render ++ domRenderList rest

/-- `_extract_resources` (lines 568-584): every `<a href>` descendant with
non-empty href and non-empty stripped text becomes `{url, title, type}`. -/
def extract_resources_elem (d : Dom) : List Resource :=
  (findAllList
      (fun n => match n with
        | .elem "a" _ attrs _ => (attrs.lookup "href").isSome
        | _ => false)
      d.childrenList).filterMap (fun link =>
    let url := (link.attrsOf.lookup "href").getD ""
    let title := pyStrip link.getText
    if url ≠ "" && title ≠ "" then
      some ⟨url, some title, determine_resource_type url⟩
    else none)

/-- `_extract_tools` (lines 547-566): the six tool patterns over the
element's lower-cased text. -/
def extract_tools_elem (d : Dom) : List String :=
  pySet (tool_vocab_groups.flatMap
    (fun vocab => findVocab vocab (pyLower d.getText)))

/-- `_extract_learning_objectives` (lines 586-603): the four objective
patterns over the element's text. -/
def extract_objectives_elem (d : Dom) : List String :=
  extract_objectives_from_text d.getText

/-! ## Tagging engine (learning_roadmap.py lines 755-804) -/

/-- `apply_tags_to_chunk` (lines 755-786): builds copies of the tag lists,
extends them with the supplied custom tags, deduplicates via `list(set(..))`,
unions supplied search tags into `metadata["keywords"]`, and returns a fresh
chunk.  The Python guards `if custom_collection_tags:` / `if
custom_search_tags:` treat `None` and `[]` alike (falsy). -/
def apply_tags_to_chunk (chunk : RoadmapChunk)
    (custom_collection_tags custom_search_tags : Option (List String)) :
    RoadmapChunk :=
  let updated_collection_tags :=
    if truthyList custom_collection_tags then
      pySet (chunk.collection_tags ++ custom_collection_tags.getD [])
    else chunk.collection_tags
  let updated_search_tags :=
    if truthyList custom_search_tags then
      pySet (chunk.search_tags ++ custom_search_tags.getD [])
    else chunk.search_tags
  let updated_metadata :=
    if truthyList custom_search_tags then
      { chunk.metadata with
        keywords := pySet (chunk.metadata.keywords ++ custom_search_tags.getD []) }
    else chunk.metadata
  { id := chunk.id
    roadmap_id := chunk.roadmap_id
    content := chunk.content
    html_fragment := chunk.html_fragment
    embedding := chunk.embedding
    chunk_index := chunk.chunk_index
    metadata := updated_metadata
    collection_tags := updated_collection_tags
    search_tags := updated_search_tags }

/-- `search_chunks_by_tags` (lines 788-804): empty tag list returns the input
unchanged; otherwise a chunk is kept iff some supplied tag matches, after
lowercasing, some chunk tag in the selected namespace. -/
def search_chunks_by_tags (chunks : List RoadmapChunk)
    (search_tags : List String) (tag_type : String) : List RoadmapChunk :=
  if search_tags.isEmpty then chunks
  else
    chunks.filter (fun chunk =>
      let chunk_tags :=
        if tag_type = "collection" then chunk.collection_tags
        else chunk.search_tags
      search_tags.any (fun tag =>
        (chunk_tags.map pyLower).contains (pyLower tag)))

/-! ## Search pipeline of `search_and_generate_html`
(learning_roadmap.py lines 827-889) -/

/-- Helper for Python `str.split()` with no argument: split on runs of
whitespace, dropping empty pieces. -/
def splitWSAux : List Char → List Char → List String
  | [], cur => if cur = [] then [] else [⟨cur.reverse⟩]
  | c :: rest, cur =>
    if c.isWhitespace then
      if cur = [] then splitWSAux rest []
      else ⟨cur.reverse⟩ :: splitWSAux rest []
    else splitWSAux rest (c :: cur)

/-- Python `s.split()`. -/
def pySplitWS (s : String) : List String := splitWSAux s.data []

/-- `calculate_similarity` (learning_roadmap.py lines 827-838): Jaccard
similarity of the lowercased word sets of query and content.  Python floats
are modelled as exact rationals; the division is exact and every score the
pipeline compares comes from this function (or the constants 1.0 / 0.8),
so exactness only sharpens the claim.  `set(...)` is modelled by `dedup`
(intersection and union cardinalities do not depend on element order). -/
def calculate_similarity (query chunk_content : String) : ℚ :=
  let query_words := (pySplitWS (pyLower query)).dedup
  let content_words := (pySplitWS (pyLower chunk_content)).dedup
  if query_words.isEmpty || content_words.isEmpty then 0
  else
    let inter := query_words.filter (fun w => decide (w ∈ content_words))
    let union := query_words ++
      content_words.filter (fun w => decide (w ∉ query_words))
    if union.isEmpty then 0
    else (inter.length : ℚ) / (union.length : ℚ)

/-- `RoadmapDocument` (learning_roadmap.py lines 33-39).  The document
metadata dictionary is never read by the functions under claim and is
carried as an opaque association list. -/
structure RoadmapDocument where
  id : String
  title : String
  original_html : String
  chunks : List RoadmapChunk
  doc_metadata : List (String × String)
  deriving Repr, DecidableEq

/-- One entry of `relevant_chunks` in `search_and_generate_html`: the
`{"chunk": ..., "similarity": ..., "document_title": ...}` dictionary. -/
structure SearchMatch where
  chunk : RoadmapChunk
  similarity : ℚ
  document_title : String
  deriving Repr, DecidableEq

/-- `query.startswith("filename:") or query.startswith("source:")`. -/
def is_filename_search (query : String) : Bool :=
  "filename:".data.isPrefixOf query.data || "source:".data.isPrefixOf query.data

/-- The per-chunk similarity of `search_and_generate_html` (lines 849-859):
1.0 for an exact tag hit on a filename search, 0.8 for a case-insensitive
tag hit, else the Jaccard text similarity. -/
def search_similarity (query : String) (chunk : RoadmapChunk) : ℚ :=
  if is_filename_search query then
    if chunk.collection_tags.contains query ||
        chunk.search_tags.contains query then 1
    else if ((chunk.collection_tags ++ chunk.search_tags).map
        pyLower).contains (pyLower query) then 4/5
    else 0
  else calculate_similarity query chunk.content

/-- Collection of `relevant_chunks` (lines 847-866): every chunk of every
document whose similarity reaches the threshold, in document order (Python
dict iteration is insertion order). -/
def search_relevant_chunks (query : String) (docs : List RoadmapDocument)
    (threshold : ℚ) : List SearchMatch :=
  docs.flatMap (fun document => document.chunks.filterMap (fun chunk =>
    let s := search_similarity query chunk
    if threshold ≤ s then
      some { chunk := chunk, similarity := s, document_title := document.title }
    else none))

/-- The sort order `key=lambda x: x["similarity"], reverse=True`.  Python
`list.sort` is stable, and so is `List.mergeSort`: ties keep encounter
order in both. -/
def descBySim (a b : SearchMatch) : Bool := decide (b.similarity ≤ a.similarity)

/-- `relevant_chunks.sort(...); top_chunks = relevant_chunks[:20]`. -/
def search_top_chunks (query : String) (docs : List RoadmapDocument)
    (threshold : ℚ) : List SearchMatch :=
  ((search_relevant_chunks query docs threshold).mergeSort descBySim).take 20

/-- One step of the dedup loop (lines 876-885): first occurrence of an id
is inserted; a later strictly higher score replaces the stored entry in
place (Python dict update keeps the key's position). -/
def dedupStep (acc : List (String × SearchMatch)) (item : SearchMatch) :
    List (String × SearchMatch) :=
  match acc.lookup item.chunk.id with
  | none => acc ++ [(item.chunk.id, item)]
  | some prev =>
    if prev.similarity < item.similarity then
      acc.map (fun kv =>
        if kv.1 = item.chunk.id then (kv.1, item) else kv)
    else acc

/-- `unique_chunks_list = list(unique_chunks.values())` (line 888). -/
def search_unique_chunks (query : String) (docs : List RoadmapDocument)
    (threshold : ℚ) : List SearchMatch :=
  ((search_top_chunks query docs threshold).foldl dedupStep []).map Prod.snd

/-- The re-sort of the deduplicated list (line 889). -/
def search_unique_sorted (query : String) (docs : List RoadmapDocument)
    (threshold : ℚ) : List SearchMatch :=
  (search_unique_chunks query docs threshold).mergeSort descBySim

/-! ## Structural parser (learning_roadmap.py lines 179-533)

`parse_html_sections` receives the raw HTML string and works on the
BeautifulSoup parse of it; the model takes both the parsed forest `doc` and
the raw string `html_content` (the theorems quantify over both
independently, which only strengthens them).

BeautifulSoup truthiness: a `Tag` is falsy iff it has no children
(`Tag.__len__`), `None` is falsy; every `if not x:` test on a find result
is modelled accordingly (`domTruthy`).

Exception handling: the only raising operation reachable in
`_parse_structured_content` is calling `find` with keyword arguments on a
`NavigableString` candidate (pattern 1 iterates the children of the
`main-branches` tag, which include text nodes); that `TypeError` is caught
by the per-level `except` and the candidate is skipped, which the model
performs directly.  The per-branch, per-sub and top-level `except` blocks
(error chunk) are unreachable, since no other modelled operation raises. -/

/-- BeautifulSoup truthiness of a find result. -/
def domTruthy : Dom → Bool
  | .elem _ _ _ cs => !cs.isEmpty
  | .text s => s ≠ ""

/-- `_extract_category_from_classes` (lines 535-545). -/
def extract_category_from_classes (classes : List String) : String :=
  let class_str := pyLower (String.intercalate " " classes)
  if pyIn "beginner" class_str || pyIn "기초" class_str then "beginner"
  else if pyIn "advanced" class_str || pyIn "고급" class_str then "advanced"
  else if pyIn "intermediate" class_str || pyIn "중급" class_str then
    "intermediate"
  else "community"

/-- The level-node resolution of lines 244-258: first `div`/`h2` descendant
whose class matches `/level|branch/`, else the first `div`/`h2` descendant,
else the level branch itself; `none` when the final `if level_node:` test
fails (a childless, hence falsy, tag). -/
def levelNodeOf (lb : Dom) : Option Dom :=
  let step1 := findFirstList
    (fun d => tagIn ["div", "h2"] d && classRegexAny ["level", "branch"] d)
    lb.childrenList
  let step2 :=
    if (step1.map domTruthy).getD false then step1
    else findFirstList (tagIn ["div", "h2"]) lb.childrenList
  let step3 := if (step2.map domTruthy).getD false then step2 else some lb
  match step3 with
  | some n => if domTruthy n then some n else none
  | none => none

/-- The branch candidates of one level (lines 289-301): `div` descendants
with class matching `/branch|sub/`, else all `div` descendants, else all
`div`/`section`/`p` descendants. -/
def branchCandidatesOfLevel (lb : Dom) : List Dom :=
  let bs := findAllList
    (fun d => tagIn ["div"] d && classRegexAny ["branch", "sub"] d)
    lb.childrenList
  if !bs.isEmpty then bs
  else
    let bs2 := findAllList (tagIn ["div"]) lb.childrenList
    if !bs2.isEmpty then bs2
    else findAllList (tagIn ["div", "section", "p"]) lb.childrenList

/-- The sub-branch candidates of one branch (lines 338-340): `div`
descendants with class matching `/sub|detail/`, else all `div`/`p`
descendants. -/
def subCandidatesOfBranch (branch : Dom) : List Dom :=
  let subs := findAllList
    (fun d => tagIn ["div"] d && classRegexAny ["sub", "detail"] d)
    branch.childrenList
  if subs.isEmpty then findAllList (tagIn ["div", "p"]) branch.childrenList
  else subs

/-- The level chunk of lines 266-285. -/
def mkLevelChunk (rid : String) (li ci : Nat) (lb : Dom)
    (level_title level_category : String) : RoadmapChunk :=
  { id := levelId rid li
    roadmap_id := rid
    content := level_title ++ " - " ++ level_category ++ " 단계"
    html_fragment := lb.render
    embedding := []
    chunk_index := ci
    metadata :=
      { msection := some level_title
        level := some (li + 1)
        branch := none
        msub := none
        category := some level_category
        mtype := some "level"
        step_number := none
        keywords := extract_keywords level_title
        tools := extract_tools_elem lb
        resources := extract_resources_elem lb
        learning_objectives := extract_objectives_elem lb }
    collection_tags := ["level-" ++ level_category]
    search_tags := ["level-" ++ level_category] }

/-- The branch chunk of lines 313-333. -/
def mkBranchChunk (rid : String) (li bi ci : Nat) (branch : Dom)
    (branch_title level_category : String) : RoadmapChunk :=
  { id := branchId rid li bi
    roadmap_id := rid
    content := branch_title
    html_fragment := branch.render
    embedding := []
    chunk_index := ci
    metadata :=
      { msection := some branch_title
        level := some (li + 1)
        branch := some (bi + 1)
        msub := none
        category := some level_category
        mtype := some "branch"
        step_number := none
        keywords := extract_keywords branch_title
        tools := extract_tools_elem branch
        resources := extract_resources_elem branch
        learning_objectives := extract_objectives_elem branch }
    collection_tags := ["branch-" ++ branch_title]
    search_tags := ["branch-" ++ branch_title] }

/-- The sub-branch chunk of lines 348-368. -/
def mkSubChunk (rid : String) (li bi si ci : Nat) (sb : Dom)
    (sub_title level_category : String) : RoadmapChunk :=
  { id := subId rid li bi si
    roadmap_id := rid
    content := sub_title
    html_fragment := sb.render
    embedding := []
    chunk_index := ci
    metadata :=
      { msection := some sub_title
        level := some (li + 1)
        branch := some (bi + 1)
        msub := some (si + 1)
        category := some level_category
        mtype := some "sub_branch"
        step_number := none
        keywords := extract_keywords sub_title
        tools := extract_tools_elem sb
        resources := extract_resources_elem sb
        learning_objectives := extract_objectives_elem sb }
    collection_tags := ["sub-branch-" ++ sub_title]
    search_tags := ["sub-branch-" ++ sub_title] }

/-- The sub-branch loop of lines 342-374 (`enumerate(sub_branches[:3])`,
the caller passes the already-truncated list): `si` and `ci` are the
running sub index and chunk index; entries whose stripped text is empty or
shorter than 3 characters are skipped.  The Python `chunk_index` counter
increments exactly when a chunk is appended, so after a loop its value is
the value before plus the number of chunks emitted; the recursive calls
pass that value. -/
def parseSubsGo (rid : String) (li bi : Nat) (category : String) :
    Nat → Nat → List Dom → List RoadmapChunk
  | _, _, [] => []
  | si, ci, sb :: rest =>
    let sub_title := pyStrip sb.getText
    if sub_title = "" || sub_title.length < 3 then
      parseSubsGo rid li bi category (si + 1) ci rest
    else
      mkSubChunk rid li bi si ci sb sub_title category ::
        parseSubsGo rid li bi category (si + 1) (ci + 1) rest

/-- The branch loop of lines 303-378: an empty stripped text gets the
default title `f"브랜치 {branch_idx+1}"`; titles shorter than 3 characters
are skipped; each kept branch emits its chunk and then up to 3 sub-branch
chunks. -/
def parseBranchesGo (rid : String) (li : Nat) (category : String) :
    Nat → Nat → List Dom → List RoadmapChunk
  | _, _, [] => []
  | bi, ci, branch :: rest =>
    let bt0 := pyStrip branch.getText
    let branch_title := if bt0 = "" then "브랜치 " ++ natStr (bi + 1) else bt0
    if branch_title.length < 3 then
      parseBranchesGo rid li category (bi + 1) ci rest
    else
      let bchunk := mkBranchChunk rid li bi ci branch branch_title category
      let subs := parseSubsGo rid li bi category 0 (ci + 1)
        ((subCandidatesOfBranch branch).take 3)
      bchunk :: subs ++
        parseBranchesGo rid li category (bi + 1) (ci + 1 + subs.length) rest

/-- One level candidate (lines 242-382).  A text candidate raises inside
`find` and is skipped by the per-level `except`; an element whose resolved
level node is falsy emits nothing (`if level_node:`). -/
def parseLevelCandidate (rid : String) (li ci : Nat) :
    Dom → List RoadmapChunk
  | .text _ => []
  | .elem t cls attrs cs =>
    let lb := Dom.elem t cls attrs cs
    match levelNodeOf lb with
    | none => []
    | some ln =>
      let t0 := pyStrip ln.getText
      let level_title := if t0 = "" then "레벨 " ++ natStr (li + 1) else t0
      let level_category := extract_category_from_classes ln.classesOf
      mkLevelChunk rid li ci lb level_title level_category ::
        parseBranchesGo rid li level_category 0 (ci + 1)
          (branchCandidatesOfLevel lb)

/-- The level loop (`for level_idx, level_branch in enumerate(...)`). -/
def parseStructuredGo (rid : String) :
    Nat → Nat → List Dom → List RoadmapChunk
  | _, _, [] => []
  | li, ci, cand :: rest =>
    let cs := parseLevelCandidate rid li ci cand
    cs ++ parseStructuredGo rid (li + 1) (ci + cs.length) rest

/-- `_parse_structured_content` (lines 231-434): the level loop, preceded by
the main-title lookup, followed by the guaranteed `fallback_structured`
chunk when the loop produced nothing. -/
def parse_structured_content (rid : String) (candidates : List Dom)
    (doc : List Dom) : List RoadmapChunk :=
  let main_title :=
    match findFirstList (tagIn ["h1", "title"]) doc with
    | some t => pyStrip t.getText
    | none => "학습 로드맵"
  let chunks := parseStructuredGo rid 0 0 candidates
  if chunks.isEmpty then
    [{ id := rid ++ "_fallback_structured"
       roadmap_id := rid
       content := main_title
       html_fragment := domRenderList doc
       embedding := []
       chunk_index := 0
       metadata :=
         { msection := some main_title
           level := some 1
           branch := none
           msub := none
           category := some "unknown"
           mtype := some "fallback_structured"
           step_number := none
           keywords := extract_keywords main_title
           tools := []
           resources := []
           learning_objectives := [] }
       collection_tags := ["unknown"]
       search_tags := ["unknown"] }]
  else chunks

/-- The candidate cascade of `parse_html_sections` (lines 187-218):
`some cands` means the structured pass runs on `cands` (for pattern 1 these
are the children of the `main-branches` tag, text nodes included); `none`
means the basic regex pass runs. -/
def branchCandidates (doc : List Dom) : Option (List Dom) :=
  let p234 : Option (List Dom) :=
    let l2 := findAllList
      (fun d => tagIn ["section", "div"] d &&
        classRegexAny ["branch", "level", "main"] d) doc
    if !l2.isEmpty then some l2
    else
      let headings := findAllList (tagIn ["h1", "h2", "h3"]) doc
      let l3 := if headings.isEmpty then [] else headingSiblings doc
      if !l3.isEmpty then some l3
      else
        let l4 := findAllList (fun d => tagIn ["div"] d && hasClassAttr d) doc
        if !l4.isEmpty then some l4 else none
  match findFirstList
      (fun d => tagIn ["div"] d && classExact "main-branches" d) doc with
  | some mb => if !mb.childrenList.isEmpty then some mb.childrenList else p234
  | none => p234

/-! ### Basic regex splitter (lines 436-533) -/

/-- The seven section patterns of lines 441-449, compiled
(`re.DOTALL | re.IGNORECASE`). -/
def section_patterns : List (List PTok) :=
  let notGt : Char → Bool := fun c => c ≠ '>'
  let notQuote : Char → Bool := fun c => c ≠ '"'
  let anyc : Char → Bool := fun _ => true
  [[.lit "<section", .star notGt 0, .lit ">", .lazyCap anyc, .lit "</section>"],
   [.lit "<div", .star notGt 0, .lit "class=\"", .star notQuote 0, .lit "step",
    .star notQuote 0, .lit "\"", .star notGt 0, .lit ">", .lazyCap anyc,
    .lit "</div>"],
   [.lit "<div", .star notGt 0, .lit "class=\"", .star notQuote 0, .lit "module",
    .star notQuote 0, .lit "\"", .star notGt 0, .lit ">", .lazyCap anyc,
    .lit "</div>"],
   [.lit "<h2", .star notGt 0, .lit ">", .lazyCap anyc, .lit "</h2>"],
   [.lit "<h3", .star notGt 0, .lit ">", .lazyCap anyc, .lit "</h3>"],
   [.lit "<div", .star notGt 0, .lit "class=\"", .star notQuote 0, .lit "\"",
    .star notGt 0, .lit ">", .lazyCap anyc, .lit "</div>"],
   [.lit "<p", .star notGt 0, .lit ">", .lazyCap anyc, .lit "</p>"]]

/-- `re.sub(r'<[^>]+>', '', s)` (line 459). -/
def strip_html_tags (s : String) : String :=
  reSubEmpty [.lit "<", .star (fun c => c ≠ '>') 1, .lit ">"] s

/-- The heading-title pattern of `_create_basic_chunk` (line 510):
`<h[1-6][^>]*>(.*?)</h[1-6]>` without `re.DOTALL`, so the lazy capture
stops at a newline. -/
def basic_title_pattern : List PTok :=
  let digit16 : Char → Bool := fun c => ['1', '2', '3', '4', '5', '6'].contains c
  [.lit "<h", .cls digit16, .star (fun c => c ≠ '>') 0, .lit ">",
   .lazyCap (fun c => c ≠ '\n'), .lit "</h", .cls digit16, .lit ">"]

/-- `_extract_resources_from_text` (lines 609-624): every
`https?://[^\s<>"]+` match becomes a numbered resource. -/
def extract_resources_from_text (text : String) : List Resource :=
  let urlTok : List PTok :=
    [.lit "http", .opt 's', .lit "://",
     .star (fun c => !(c.isWhitespace || c = '<' || c = '>' || c = '"')) 1]
  let urls := reFindAllWhole urlTok text
  (List.range urls.length).zip urls |>.map (fun iu =>
    { url := iu.2
      title := some ("리소스 " ++ natStr (iu.1 + 1))
      rtype := determine_resource_type iu.2 })

/-- `_create_basic_chunk` (lines 507-533). -/
def create_basic_chunk (rid : String) (index : Nat)
    (html_fragment content : String) : RoadmapChunk :=
  let section_title :=
    match reSearch basic_title_pattern html_fragment with
    | some t => pyStrip t
    | none => "섹션 " ++ natStr (index + 1)
  { id := chunkId rid index
    roadmap_id := rid
    content := content
    html_fragment := html_fragment
    embedding := []
    chunk_index := index
    metadata :=
      { msection := some section_title
        level := none
        branch := none
        msub := none
        category := none
        mtype := none
        step_number := some (index + 1)
        keywords := extract_keywords content
        tools := extract_tools_from_text content
        resources := extract_resources_from_text content
        learning_objectives := extract_objectives_from_text content }
    collection_tags := ["unknown"]
    search_tags := ["unknown"] }

/-- The chunk-building loop of lines 463-466 (`enumerate`). -/
def mkBasicChunksGo (rid : String) :
    Nat → List (String × String) → List RoadmapChunk
  | _, [] => []
  | i, (frag, content) :: rest =>
    create_basic_chunk rid i frag content :: mkBasicChunksGo rid (i + 1) rest

/-- `_parse_basic_sections` (lines 436-468): captures of the seven patterns
concatenated, tag-stripped and length-filtered, then turned into flat
chunks.  (Despite its name, `unique_sections` performs no deduplication in
the source.) -/
def parse_basic_sections (rid : String) (html_content : String) :
    List RoadmapChunk :=
  let all_sections := section_patterns.flatMap
    (fun p => reFindAll p html_content)
  let unique_sections := all_sections.filterMap (fun sec =>
    let cleaned := pyStrip (strip_html_tags sec)
    if cleaned ≠ "" && cleaned.length > 5 then some (sec, cleaned) else none)
  mkBasicChunksGo rid 0 unique_sections

/-- The recurring Python idiom `s[:n] + "..." if len(s) > n else s`. -/
def truncate_with_ellipsis (s : String) (n : Nat) : String :=
  if s.length > n then pyTake s n ++ "..." else s

/-- `_create_fallback_chunk` (lines 470-505): one chunk holding the plain
text (truncated at 500 characters) and the raw HTML (truncated at 1000),
with the fixed placeholder when the document has no text at all. -/
def create_fallback_chunk (rid : String) (doc : List Dom)
    (html_content : String) : List RoadmapChunk :=
  let t0 := pyStrip (getTextList doc)
  let text_content := if t0 = "" then "파싱할 수 있는 내용이 없습니다." else t0
  let title :=
    match findFirstList (tagIn ["h1", "title"]) doc with
    | some t => pyStrip t.getText
    | none => "학습 로드맵"
  [{ id := rid ++ "_fallback"
     roadmap_id := rid
     content := truncate_with_ellipsis text_content 500
     html_fragment := truncate_with_ellipsis html_content 1000
     embedding := []
     chunk_index := 0
     metadata :=
       { msection := some title
         level := some 1
         branch := none
         msub := none
         category := some "unknown"
         mtype := some "fallback"
         step_number := some 1
         keywords := extract_keywords text_content
         tools := extract_tools_from_text text_content
         resources := extract_resources_from_text text_content
         learning_objectives := extract_objectives_from_text text_content }
     collection_tags := ["unknown"]
     search_tags := ["unknown"] }]

/-- `parse_html_sections` (lines 179-229): candidate cascade, structured or
basic pass, and the final at-least-one-chunk guarantee. -/
def parse_html_sections (doc : List Dom) (html_content : String)
    (rid : String) : List RoadmapChunk :=
  let chunks :=
    match branchCandidates doc with
    | some cands => parse_structured_content rid cands doc
    | none => parse_basic_sections rid html_content
  if chunks.isEmpty then create_fallback_chunk rid doc html_content
  else chunks

/-! ## Hierarchy reconstructor (learning_roadmap.py lines 3131-3175)

`convert_chunks_to_roadmap_data` builds its phases in a dictionary keyed by
the string `f"{level}"` and finally sorts the keys numerically
(`key=lambda x: int(x) if x.isdigit() else x`).  Decimal rendering is
injective on naturals and `int` inverts it, so the model keys the
dictionary by the level number directly; the dictionary's insertion order
becomes an association-list append. -/

structure Topic where
  title : String
  description : String
  learning_links : List (String × String)
  deriving Repr, DecidableEq

structure Phase where
  title : String
  duration : String
  topics : List Topic
  deriving Repr, DecidableEq

structure RoadmapData where
  main_topic : String
  prerequisites : List String
  phases : List Phase
  resources : List String
  deriving Repr, DecidableEq

/-- The prerequisite test of line 3140: type `prerequisite`/`requirement`,
or the marker word `사전` occurring in the section title. -/
def isPrereqChunk (c : RoadmapChunk) : Bool :=
  (c.metadata.mtype = some "prerequisite" ||
   c.metadata.mtype = some "requirement") ||
    pyIn "사전" (c.metadata.msection.getD "")

/-- `chunk.metadata.get("level", 1)`. -/
def levelOf (c : RoadmapChunk) : Nat := c.metadata.level.getD 1

def atLevel (l : Nat) (c : RoadmapChunk) : Bool := decide (levelOf c = l)

/-- `str(res)` for a resource dictionary (only reachable when both `title`
and `url` are falsy; the exact Python `repr` format is approximated and
never inspected by a claim). -/
def strOfRes (r : Resource) : String :=
  "\x7b\x27url\x27: \x27" ++ r.url ++ "\x27, \x27title\x27: \x27" ++
    r.title.getD "" ++ "\x27, \x27type\x27: \x27" ++ r.rtype ++
    "\x27\x7d"

/-- `res.get("title") or res.get("url") or str(res)` (line 3145). -/
def resDisplay (r : Resource) : String :=
  match r.title with
  | some t => if t ≠ "" then t else if r.url ≠ "" then r.url else strOfRes r
  | none => if r.url ≠ "" then r.url else strOfRes r

/-- The topic built from one chunk (lines 3156-3167): title from the
section key (default `""`), description from the content, one learning
link per resource with a truthy url, titled `res.get("title",
res.get("url"))`.  (The source guards the link loop with
`if chunk.metadata.get("resources"):`, which is equivalent to iterating the
possibly-empty list directly.) -/
def mkTopic (c : RoadmapChunk) : Topic :=
  { title := c.metadata.msection.getD ""
    description := c.content
    learning_links := c.metadata.resources.filterMap (fun r =>
      if r.url ≠ "" then some (r.title.getD r.url, r.url) else none) }

/-- The default title of a fresh phase: `chunk.metadata.get("section",
f"단계 {level}")` (line 3152). -/
def phaseTitleOf (c : RoadmapChunk) (l : Nat) : String :=
  c.metadata.msection.getD ("단계 " ++ natStr l)

/-- `if phase_key not in phase_dict: phase_dict[phase_key] = {...}` —
dictionary insertion preserves order (append). -/
def dictInsertIfAbsent (dict : List (Nat × Phase)) (l : Nat) (ph : Phase) :
    List (Nat × Phase) :=
  if (dict.lookup l).isSome then dict else dict ++ [(l, ph)]

/-- `phase_dict[phase_key]["topics"].append(topic)`. -/
def dictAppendTopic (dict : List (Nat × Phase)) (l : Nat) (topic : Topic) :
    List (Nat × Phase) :=
  dict.map (fun kv =>
    if kv.1 = l then (kv.1, { kv.2 with topics := kv.2.topics ++ [topic] })
    else kv)

/-- One iteration of the chunk loop (lines 3139-3168), over the state
`(prerequisites, resources, phase_dict)`. -/
def convertStep (st : List String × List String × List (Nat × Phase))
    (chunk : RoadmapChunk) : List String × List String × List (Nat × Phase) :=
  let (prereqs, resources, phase_dict) := st
  let prereqs :=
    if isPrereqChunk chunk then prereqs ++ [chunk.content] else prereqs
  let resources :=
    if chunk.metadata.resources.isEmpty then resources
    else resources ++ chunk.metadata.resources.map resDisplay
  let level := levelOf chunk
  let phase_dict := dictInsertIfAbsent phase_dict level
    { title := phaseTitleOf chunk level, duration := "", topics := [] }
  let phase_dict := dictAppendTopic phase_dict level (mkTopic chunk)
  (prereqs, resources, phase_dict)

/-- `convert_chunks_to_roadmap_data` (lines 3131-3175). -/
def convert_chunks_to_roadmap_data (chunks : List RoadmapChunk)
    (main_topic : String := "로드맵") : RoadmapData :=
  let st := chunks.foldl convertStep ([], [], [])
  { main_topic := main_topic
    prerequisites := st.1
    phases := (st.2.2.mergeSort (fun a b => decide (a.1 ≤ b.1))).map Prod.snd
    resources := st.2.1 }

/-! ## The React roadmap parser (react_roadmap_parser.py lines 31-331)
and the two renderers of C2 -/

/-- One entry of `RoadmapNode.links`: the `{url, title, type}` dictionary
built by `_extract_links_from_node`.  `type` is read back by the legacy
renderer with `link.get("type", "🔗")`, hence optional. -/
structure RRLink where
  url : String
  title : String
  ltype : Option String
  deriving Repr, DecidableEq

/-- `RoadmapNode` (react_roadmap_parser.py lines 31-42). -/
structure RoadmapNode where
  id : String
  title : String
  content : String
  depth : Nat
  parent_id : Option String
  node_type : String
  category : String
  links : List RRLink
  order : Nat
  tags : List String
  deriving Repr, DecidableEq

/-- `str(uuid.uuid4())`: every created node draws a fresh identifier.  The
model draws from a deterministic supply indexed by creation order — the only
property the code relies on, and none of the claims depends on the ids being
distinct. -/
def freshId (n : Nat) : String := "uuid-" ++ natStr n

/-- `re.sub(r'\s*▶\s*$', '', t)`: drop one trailing `▶` together with the
whitespace around it (the pattern is end-anchored, so it matches at most
once). -/
def stripArrowEnd (s : String) : String :=
  let r := s.data.reverse.dropWhile Char.isWhitespace
  match r with
  | '▶' :: rest => ⟨(rest.dropWhile Char.isWhitespace).reverse⟩
  | _ => s

/-- `_get_category_from_classes` (lines 326-331): the first CSS class that is
exactly one of the four category names, else `general`. -/
def rrCategoryFromClasses (classes : List String) : String :=
  (classes.find? (fun c =>
    ["beginner", "intermediate", "advanced", "community"].contains c)).getD
    "general"

/-- The keyword list of `_extract_tags_from_title` (line 335). -/
def rrTitleKeywords : List String :=
  ["hooks", "router", "redux", "typescript", "testing", "nextjs", "jsx",
   "props", "state"]

/-- The keyword list of `_extract_tags_from_content` (line 347). -/
def rrContentKeywords : List String :=
  ["hooks", "router", "redux", "typescript", "testing", "nextjs", "jsx",
   "props", "state", "useeffect", "usestate", "component"]

/-- `_extract_tags_from_title`: keywords occurring in the lowercased title,
in keyword-list order. -/
def rrTagsFromTitle (title : String) : List String :=
  rrTitleKeywords.filter (fun k => pyIn k (pyLower title))

/-- `_extract_tags_from_content`. -/
def rrTagsFromContent (content : String) : List String :=
  rrContentKeywords.filter (fun k => pyIn k (pyLower content))

/-- The title extraction of `_parse_detail_node` (lines 199-204):
`re.match(r'^([^:]+):', content)` — the stripped text before the first
colon, provided the content neither starts with a colon nor lacks one —
else the 50-character truncation with `"..."`. -/
def detailTitle (content : String) : String :=
  let pre := content.data.takeWhile (fun c => c ≠ ':')
  if !pre.isEmpty && decide (pre.length < content.data.length) then
    pyStrip ⟨pre⟩
  else if content.data.length > 50 then pyTake content 50 ++ "..."
  else content

/-- `_determine_link_type` (lines 286-297): substring tests on the URL. -/
def rrLinkType (url : String) : String :=
  if pyIn "youtube.com" url || pyIn "youtu.be" url then "video"
  else if pyIn "github.com" url then "github"
  else if pyIn "docs." url || pyIn "developer.mozilla.org" url ||
    pyIn ".org/" url then "documentation"
  else if pyIn "book" url || pyIn "pdf" url then "book"
  else "website"

/-- `_determine_resource_type` of the React parser (lines 299-308): leading
emoji dispatch. -/
def rrResourceType (content : String) : String :=
  if "🎥".data.isPrefixOf content.data then "video"
  else if "📖".data.isPrefixOf content.data ||
    "📄".data.isPrefixOf content.data then "documentation"
  else if "🔗".data.isPrefixOf content.data then "link"
  else "general"

/-- `_extract_title_from_resource` (lines 310-316): strip one leading emoji
and following whitespace, then the stripped prefix before the first colon
if any, else the 50-character truncation. -/
def resourceTitle (content : String) : String :=
  let cleaned :=
    match content.data with
    | c :: rest =>
      if ['🎥', '📖', '📄', '🔗'].contains c then
        rest.dropWhile Char.isWhitespace
      else content.data
    | [] => []
  if cleaned.contains ':' then pyStrip ⟨cleaned.takeWhile (fun c => c ≠ ':')⟩
  else if cleaned.length > 50 then (⟨cleaned.take 50⟩ : String) ++ "..."
  else ⟨cleaned⟩

/-- `re.search(r'추천 책:\s*(.+)', content)`: scan for the first occurrence
of the literal after which the rest of the pattern matches; `\s*` is greedy
but backtracks so that `(.+)` starts at the last whitespace position whose
head is not a newline, and `(.+)` then runs to the end of the line.  Returns
`group(1).strip()`. -/
def bookScan : List Char → Option String
  | [] => none
  | c :: rest =>
    if "추천 책:".data.isPrefixOf (c :: rest) then
      let after := (c :: rest).drop "추천 책:".data.length
      let wlen := (after.takeWhile Char.isWhitespace).length
      match (List.range (wlen + 1)).reverse.findSome? (fun k =>
          match after.drop k with
          | d :: _ => if d ≠ '\n' then some k else none
          | [] => none) with
      | some k =>
        some (pyStrip ⟨(after.drop k).takeWhile (fun d => d ≠ '\n')⟩)
      | none => bookScan rest
    else bookScan rest

/-- `_extract_title_from_book` (lines 318-324). -/
def bookTitle (content : String) : String :=
  match bookScan content.data with
  | some t => t
  | none =>
    if content.data.length > 50 then pyTake content 50 ++ "..." else content

/-- `_extract_links_from_node` (lines 274-284): every `a` descendant
carrying an `href` attribute, in document order. -/
def extractLinks (d : Dom) : List RRLink :=
  (findAllList (fun n =>
    tagIn ["a"] n && (n.attrsOf.lookup "href").isSome) d.childrenList).map
    (fun a =>
      let href := (a.attrsOf.lookup "href").getD ""
      { url := href, title := pyStrip a.getText,
        ltype := some (rrLinkType href) })

/-- The loop of `_parse_details` (lines 185-196) over the `div` descendants
of a details container, dispatching on the CSS class; `_parse_detail_node`
skips contentless nodes before incrementing `current_order`
(lines 198-222), `_parse_resource_node` and `_parse_book_node` always
append (lines 224-272).  `co` is `current_order`; node ids come from the
deterministic uuid supply, whose index always equals the order counter. -/
def rrParseDetailsGo (divs : List Dom) (pid cat : String) (co : Nat) :
    List RoadmapNode :=
  match divs with
  | [] => []
  | d :: rest =>
    let classes := d.classesOf
    if classes.contains "detail-node" then
      let content := pyStrip d.getText
      if content = "" then rrParseDetailsGo rest pid cat co
      else
        { id := freshId (co + 1), title := detailTitle content,
          content := content, depth := 3, parent_id := some pid,
          node_type := "detail", category := cat, links := [],
          order := co + 1,
          tags := [cat, "react"] ++ rrTagsFromContent content } ::
          rrParseDetailsGo rest pid cat (co + 1)
    else if classes.contains "resource-node" then
      let links := extractLinks d
      let content := pyStrip d.getText
      { id := freshId (co + 1), title := resourceTitle content,
        content := content, depth := 3, parent_id := some pid,
        node_type := "resource", category := cat, links := links,
        order := co + 1,
        tags := [cat, "react", "resource", rrResourceType content] } ::
        rrParseDetailsGo rest pid cat (co + 1)
    else if classes.contains "book-node" then
      let links := extractLinks d
      let content := pyStrip d.getText
      { id := freshId (co + 1), title := bookTitle content,
        content := content, depth := 3, parent_id := some pid,
        node_type := "book", category := cat, links := links,
        order := co + 1,
        tags := [cat, "react", "book", "reference"] } ::
        rrParseDetailsGo rest pid cat (co + 1)
    else rrParseDetailsGo rest pid cat co

/-- `sub_node.find_next_sibling('div', class_='sub-branches')` followed by
the truthiness test and `_parse_details` (lines 178-183): the first
following sibling that is a `div` with class `sub-branches`, parsed when it
has children. -/
def rrDetailsOf (rest : List Dom) (sid cat : String) (co : Nat) :
    List RoadmapNode :=
  match rest.find? (fun s =>
      tagIn ["div"] s && classExact "sub-branches" s) with
  | some sib =>
    if domTruthy sib then
      rrParseDetailsGo (findAllList (tagIn ["div"]) sib.childrenList)
        sid cat co
    else []
  | none => []

/-- `_parse_sub_branches` (lines 157-183): walk the container's children;
each direct `div.sub-node` child becomes a `sub_branch` node, followed by
the details parsed from its next `sub-branches` sibling. -/
def rrParseSubsGo (children : List Dom) (bid cat : String) (co : Nat) :
    List RoadmapNode :=
  match children with
  | [] => []
  | d :: rest =>
    if tagIn ["div"] d && classExact "sub-node" d then
      let title := stripArrowEnd (pyStrip d.getText)
      let sub : RoadmapNode :=
        { id := freshId (co + 1), title := title,
          content := cat ++ " 단계의 " ++ title ++ " 관련 내용",
          depth := 2, parent_id := some bid, node_type := "sub_branch",
          category := cat, links := [], order := co + 1,
          tags := [cat, "react"] ++ rrTagsFromTitle title }
      let details := rrDetailsOf rest sub.id cat (co + 1)
      sub :: details ++ rrParseSubsGo rest bid cat (co + 1 + details.length)
    else rrParseSubsGo rest bid cat co

/-- `branch_elem.find('div', class_='sub-branches')` plus the truthiness
test at lines 152-155. -/
def rrSubsOf (branch : Dom) (bid cat : String) (co : Nat) :
    List RoadmapNode :=
  match findFirstList (fun d =>
      tagIn ["div"] d && classExact "sub-branches" d)
      branch.childrenList with
  | some sb =>
    if domTruthy sb then rrParseSubsGo sb.childrenList bid cat co
    else []
  | none => []

/-- `_parse_branch` (lines 124-155): require a truthy `div.level-node`
descendant, build the `branch` node, then parse the sub-branches. -/
def rrParseBranch (branch : Dom) (rootId : String) (co : Nat) :
    List RoadmapNode :=
  match findFirstList (fun d => tagIn ["div"] d && classExact "level-node" d)
      branch.childrenList with
  | none => []
  | some ln =>
    if !domTruthy ln then []
    else
      let cat := rrCategoryFromClasses ln.classesOf
      let title := stripArrowEnd (pyStrip ln.getText)
      let bnode : RoadmapNode :=
        { id := freshId (co + 1), title := title,
          content := cat ++ " 단계의 React 학습 내용",
          depth := 1, parent_id := some rootId, node_type := "branch",
          category := cat, links := [], order := co + 1,
          tags := [cat, "react", "learning"] }
      let subs := rrSubsOf branch bnode.id cat (co + 1)
      bnode :: subs

/-- The branch loop of `parse` (lines 64-67). -/
def rrParseBranchesGo (branches : List Dom) (rootId : String) (co : Nat) :
    List RoadmapNode :=
  match branches with
  | [] => []
  | b :: rest =>
    let emitted := rrParseBranch b rootId co
    emitted ++ rrParseBranchesGo rest rootId (co + emitted.length)

/-- `ReactRoadmapParser.parse` (lines 54-73) with `_create_root_node`
(lines 108-122): the root node first — its title from a truthy
`h1.mindmap-title` — then the branches of a truthy `div.main-branches`.
The validation-logger calls only write logs. -/
def react_parse (doc : List Dom) : List RoadmapNode :=
  let rootTitle :=
    match findFirstList (fun d =>
        tagIn ["h1"] d && classExact "mindmap-title" d) doc with
    | some t => if domTruthy t then pyStrip t.getText else "React 학습 로드맵"
    | none => "React 학습 로드맵"
  let root : RoadmapNode :=
    { id := freshId 0, title := rootTitle,
      content := "React 학습을 위한 체계적인 로드맵",
      depth := 0, parent_id := none, node_type := "root",
      category := "general", links := [], order := 0,
      tags := ["react", "roadmap", "learning", "frontend"] }
  let branchNodes :=
    match findFirstList (fun d =>
        tagIn ["div"] d && classExact "main-branches" d) doc with
    | some mb =>
      if domTruthy mb then
        rrParseBranchesGo
          (findAllList (fun d => tagIn ["div"] d && classExact "branch" d)
            mb.childrenList)
          root.id 0
      else []
    | none => []
  root :: branchNodes

/-- Every node's parent is drawn from the identifiers available before it:
the initially available ids, extended by each node in turn. -/
def ParentsFrom : List String → List RoadmapNode → Prop
  | _, [] => True
  | avail, n :: rest =>
    (∃ p ∈ avail, n.parent_id = some p) ∧ ParentsFrom (avail ++ [n.id]) rest

/-- Python `html.escape` replaces `&` first and then the other four
specials, which equals this per-character map (the ampersands introduced by
the replacements are not revisited). -/
def escapeChar (c : Char) : List Char :=
  if c = '&' then "&amp;".data
  else if c = '<' then "&lt;".data
  else if c = '>' then "&gt;".data
  else if c = '"' then "&quot;".data
  else if c.toNat = 39 then "&#x27;".data
  else [c]

/-- `html.escape(s)` with the default `quote=True`. -/
def htmlEscape (s : String) : String := ⟨s.data.flatMap escapeChar⟩

/-- `render_nodes` of `generate_roadmap_html` (react_roadmap_parser.py
lines 736-770), recursing through `parent_id` links with explicit fuel
(the Python function does not terminate on cyclic `parent_id` chains; any
fuel of at least the recursion depth — `nodes.length + 1` covers every
acyclic input — computes the same string).  No interpolated field is
escaped. -/
def renderNodesF (nodes : List RoadmapNode) :
    Nat → Option String → Nat → String
  | 0, _, _ => ""
  | fuel + 1, parent_id, depth =>
    let children := nodes.filter (fun n => n.parent_id == parent_id)
    if children.isEmpty then ""
    else
      let parts := children.flatMap (fun node =>
        if node.node_type = "branch" then
          ["<div class=\"branch\">",
           "<div class=\"level-node " ++ node.category ++
             "\" onclick=\"toggleBranch(\x27" ++ node.id ++ "\x27)\">" ++
             node.title ++ " <span class=\"expand-icon\">▶</span></div>",
           "<div class=\"sub-branches\" id=\"" ++ node.id ++ "\">" ++
             renderNodesF nodes fuel (some node.id) (depth + 1) ++ "</div>",
           "</div>"]
        else if node.node_type = "sub_branch" then
          ["<div class=\"sub-node\" onclick=\"toggleSubBranch(\x27" ++
             node.id ++ "\x27)\">" ++ node.title ++
             " <span class=\"expand-icon\">▶</span></div>",
           "<div class=\"sub-branches\" id=\"" ++ node.id ++ "\">" ++
             renderNodesF nodes fuel (some node.id) (depth + 1) ++ "</div>"]
        else if node.node_type = "detail" then
          ["<div class=\"detail-node\">" ++ node.content ++ "</div>"]
        else if node.node_type = "resource" then
          if !node.links.isEmpty then
            node.links.map (fun link =>
              "<div class=\"resource-node\">" ++ link.ltype.getD "🔗" ++
                " <a href=\"" ++ link.url ++ "\" target=\"_blank\">" ++
                link.title ++ "</a></div>")
          else ["<div class=\"resource-node\">" ++ node.content ++ "</div>"]
        else if node.node_type = "book" then
          if !node.links.isEmpty then
            node.links.map (fun link =>
              "<div class=\"book-node\">📚 <a href=\"" ++ link.url ++
                "\" target=\"_blank\">" ++ link.title ++ "</a></div>")
          else ["<div class=\"book-node\">📚 " ++ node.content ++ "</div>"]
        else [])
      let parts :=
        (if depth = 1 then
          ["<div class=\"main-branches\" id=\"mainBranches\" style=\"display: flex;\">"]
         else []) ++ parts ++ (if depth = 1 then ["</div>"] else [])
      String.intercalate "\n" parts

/-- The `<body>` built by `generate_roadmap_html` (lines 772-795).  The
`head_html`/`script_html` pieces are read from the template file and carry
no node data; the f-string's indentation whitespace is normalised to single
newlines, which changes no interpolation. -/
def generate_roadmap_body (nodes : List RoadmapNode) : String :=
  let root := nodes.find? (fun n => n.node_type == "root")
  let root_title :=
    match root with
    | some r => r.title
    | none => "React 학습 로드맵"
  "<body>\n<div class=\"mindmap-container\">\n<h1 class=\"mindmap-title\">" ++
    root_title ++ "</h1>\n<div class=\"controls\">\n" ++
    "<button class=\"btn\" onclick=\"expandAll()\">전체 펼치기</button>\n" ++
    "<button class=\"btn\" onclick=\"collapseAll()\">전체 접기</button>\n" ++
    "</div>\n<div class=\"mindmap\">\n" ++
    "<div class=\"root-node\" onclick=\"toggleAllBranches()\">" ++
    root_title ++ "</div>\n" ++
    renderNodesF nodes (nodes.length + 1) (root.map (fun r => r.id)) 1 ++
    "\n</div>\n</div>\n</body>"

/-- Round `100·q` to an integer, ties to even — the rounding of Python's
`f"{x:.2f}"` applied to the model's exact rational scores.  Computed on the
numerator and denominator directly so that it kernel-evaluates. -/
def roundHalfEven100 (q : ℚ) : Int :=
  let n := q.num * 100
  let d := (q.den : Int)
  let f := n.fdiv d
  let rem := n - f * d
  if 2 * rem < d then f
  else if d < 2 * rem then f + 1
  else if f % 2 = 0 then f else f + 1

/-- `f"{similarity:.2f}"` on the model's exact rational scores. -/
def fmt2 (q : ℚ) : String :=
  let n := roundHalfEven100 q
  let sign := if n < 0 then "-" else ""
  let m := n.natAbs
  sign ++ natStr (m / 100) ++ "." ++
    (if m % 100 < 10 then "0" else "") ++ natStr (m % 100)

/-- The per-chunk fragment of `search_and_generate_html`
(learning_roadmap.py lines 1192-1240): section and 150-character-truncated
content, similarity score, up to three resources (anchor for a validated
http/https url, plain text otherwise), up to three tools, up to two
objectives — every interpolated text field passed through `html.escape`.
The `isinstance(resource, dict)` test is always true of modelled resources;
the f-string indentation is normalised. -/
def render_search_item (item : SearchMatch) : String :=
  let chunk := item.chunk
  let msection := chunk.metadata.msection.getD "N/A"
  let content :=
    if chunk.content.data.length > 150 then pyTake chunk.content 150 ++ "..."
    else chunk.content
  let base :=
    "<div class=\"detail-node\">" ++ htmlEscape msection ++ "</div>\n" ++
    "<div class=\"detail-node\">" ++ htmlEscape content ++ "</div>\n" ++
    "<div class=\"similarity-score\">유사도: " ++ fmt2 item.similarity ++
    "</div>\n"
  let resPart := String.join ((chunk.metadata.resources.take 3).map (fun r =>
    let title := r.title.getD "리소스"
    let url := r.url
    if url != "" && url != "#" &&
        ("http://".data.isPrefixOf url.data ||
         "https://".data.isPrefixOf url.data) then
      "<div class=\"resource-node\">🔗 <a href=\"" ++ htmlEscape url ++
        "\" target=\"_blank\" rel=\"noopener noreferrer\">" ++
        htmlEscape title ++ "</a></div>"
    else
      "<div class=\"resource-node\">📚 " ++ htmlEscape title ++ "</div>"))
  let toolsPart :=
    if chunk.metadata.tools.isEmpty then ""
    else
      "<div class=\"detail-node\">🔧 도구: " ++
        htmlEscape (String.intercalate ", " (chunk.metadata.tools.take 3)) ++
        "</div>"
  let objPart :=
    String.join ((chunk.metadata.learning_objectives.take 2).map
      (fun objective =>
        "<div class=\"detail-node\">🎯 " ++ htmlEscape objective ++ "</div>"))
  base ++ resPart ++ toolsPart ++ objPart

/-- A concrete root node (C2 counterexample input). -/
def rootW : RoadmapNode :=
  { id := "uuid-0", title := "React 로드맵",
    content := "React 학습을 위한 체계적인 로드맵", depth := 0,
    parent_id := none, node_type := "root", category := "general",
    links := [], order := 0, tags := [] }

/-- A concrete detail node carrying a script tag as content (C2
counterexample input). -/
def detailW : RoadmapNode :=
  { id := "uuid-1", title := "x", content := "<script>alert(1)</script>",
    depth := 3, parent_id := some "uuid-0", node_type := "detail",
    category := "general", links := [], order := 1, tags := [] }

/-- A concrete search match whose chunk content is a script tag (C2
amended-claim input). -/
def itemW : SearchMatch :=
  { chunk :=
    { id := "doc_basic_0", roadmap_id := "doc",
      content := "<script>alert(1)</script>", html_fragment := "",
      embedding := [], chunk_index := 0, metadata := Metadata.empty,
      collection_tags := [], search_tags := [] },
    similarity := 1, document_title := "Doc" }

/-! ## Identifier families (used to state the id-distinctness invariant) -/

/-- The chunk ids the structured pass can emit for branch family `k` of
level `li`. -/
def IsBranchFamilyId (rid : String) (li k : Nat) (s : String) : Prop :=
  s = branchId rid li k ∨ ∃ j, s = subId rid li k j

/-- The chunk ids the structured pass can emit for level candidate `k`. -/
def IdAtLevel (rid : String) (k : Nat) (s : String) : Prop :=
  s = levelId rid k ∨ (∃ j, s = branchId rid k j) ∨ ∃ j j', s = subId rid k j j'

/-! ## Concrete inputs used by witnesses -/

/-- The synthetic round-trip fragment of C4: one `main-branches` container
holding two `branch` divs, each with one `level-node` (classes `beginner`
and `advanced`) whose nested text block has at least 3 characters. -/
def domC4 : List Dom :=
  [Dom.el "div" ["main-branches"] []
    [Dom.el "div" ["branch"] []
      [Dom.el "div" ["level-node", "beginner"] [] [.text "Fundamentals"]],
     Dom.el "div" ["branch"] []
      [Dom.el "div" ["level-node", "advanced"] [] [.text "Deep Dive"]]]]

/-- The parsed form of `"<html><body></body></html>"` (C7). -/
def domEmptyBody : List Dom := [Dom.el "html" [] [] [Dom.el "body" [] [] []]]

/-- A concrete branch with one sub candidate (witness input for C4's
sub-branch bound). -/
def branchW : Dom :=
  Dom.el "div" ["branch"] [] [Dom.el "div" ["sub-node"] [] [.text "Hooks API"]]

/-- A concrete text-only document (witness input for C7's truncation
clauses). -/
def domTextW : List Dom := [Dom.text "hello world"]

/-- A 1001-character raw HTML string (witness input for C7's 1000-character
truncation clause). -/
def longHtmlW : String := ⟨List.replicate 1001 'b'⟩

/-- A concrete chunk with duplicate search tags, used to witness the tagging
theorems on a non-trivial input. -/
def chunkW : RoadmapChunk :=
  { id := "doc_level_0"
    roadmap_id := "doc"
    content := "React basics"
    html_fragment := "<div>React basics</div>"
    embedding := []
    chunk_index := 0
    metadata := { Metadata.empty with keywords := ["react"] }
    collection_tags := ["level-beginner"]
    search_tags := ["React", "React"] }

/-- A synthetic chunk at a given level for the C5 scenario: section title
and content chosen freely, no resources, not a prerequisite. -/
def scenC (lvl : Nat) (sec content : String) : RoadmapChunk :=
  { id := sec, roadmap_id := "doc", content := content, html_fragment := "",
    embedding := [], chunk_index := 0,
    metadata := { Metadata.empty with msection := some sec, level := some lvl },
    collection_tags := [], search_tags := [] }

end CreateDb

namespace CreateDb

/-! # Theorems settling the claims -/

/-! ## Invariants of the structured parser (towards C1, C3, C4) -/

theorem range'_append_one (s m n : Nat) :
    List.range' s m ++ List.range' (s + m) n = List.range' s (m + n) := by
  have h := List.range'_append s m n 1
  simp only [Nat.one_mul, Nat.mul_one] at h
  rw [Nat.add_comm m n, ← h]

theorem parseSubsGo_indices (rid : String) (li bi : Nat) (cat : String)
    (subs : List Dom) : ∀ si ci,
    (parseSubsGo rid li bi cat si ci subs).map (fun c => c.chunk_index) =
      List.range' ci (parseSubsGo rid li bi cat si ci subs).length := by
  induction subs with
  | nil => intro si ci; simp [parseSubsGo]
  | cons sb rest ih =>
    intro si ci
    simp only [parseSubsGo]
    split
    · exact ih (si + 1) ci
    · simp only [List.map_cons, List.length_cons]
      rw [List.range'_succ, ih (si + 1) (ci + 1)]
      rfl

theorem parseSubsGo_len_le (rid : String) (li bi : Nat) (cat : String)
    (subs : List Dom) : ∀ si ci,
    (parseSubsGo rid li bi cat si ci subs).length ≤ subs.length := by
  induction subs with
  | nil => intro si ci; simp [parseSubsGo]
  | cons sb rest ih =>
    intro si ci
    simp only [parseSubsGo, List.length_cons]
    split
    · exact Nat.le_succ_of_le (ih (si + 1) ci)
    · simp only [List.length_cons]
      exact Nat.succ_le_succ (ih (si + 1) (ci + 1))

theorem parseSubsGo_shape (rid : String) (li bi : Nat) (cat : String)
    (subs : List Dom) : ∀ si ci,
    ∀ c ∈ parseSubsGo rid li bi cat si ci subs,
      c.metadata.mtype = some "sub_branch" ∧ 3 ≤ c.content.length := by
  induction subs with
  | nil => intro si ci c hc; simp [parseSubsGo] at hc
  | cons sb rest ih =>
    intro si ci c hc
    simp only [parseSubsGo] at hc
    revert hc
    split
    · intro hc
      exact ih (si + 1) ci c hc
    · next hcond =>
      intro hc
      simp only [List.mem_cons] at hc
      rcases hc with hceq | hc
      · subst hceq
        refine ⟨rfl, ?_⟩
        simp only [Bool.or_eq_true, decide_eq_true_eq, not_or,
          Bool.not_eq_true] at hcond
        simp only [mkSubChunk]
        omega
      · exact ih (si + 1) (ci + 1) c hc

theorem parseSubsGo_ids (rid : String) (li bi : Nat) (cat : String)
    (subs : List Dom) : ∀ si ci,
    ((parseSubsGo rid li bi cat si ci subs).map (fun c => c.id)).Nodup ∧
    ∀ c ∈ parseSubsGo rid li bi cat si ci subs,
      ∃ k, si ≤ k ∧ c.id = subId rid li bi k := by
  induction subs with
  | nil => intro si ci; simp [parseSubsGo]
  | cons sb rest ih =>
    intro si ci
    simp only [parseSubsGo]
    split
    · obtain ⟨h1, h2⟩ := ih (si + 1) ci
      refine ⟨h1, fun c hc => ?_⟩
      obtain ⟨k, hk, he⟩ := h2 c hc
      exact ⟨k, by omega, he⟩
    · obtain ⟨h1, h2⟩ := ih (si + 1) (ci + 1)
      simp only [List.map_cons, List.nodup_cons, List.mem_cons]
      refine ⟨⟨?_, h1⟩, ?_⟩
      · intro hmem
        simp only [List.mem_map] at hmem
        obtain ⟨c, hc, hid⟩ := hmem
        obtain ⟨k, hk, he⟩ := h2 c hc
        rw [he] at hid
        have hks := (subId_inj hid).2.2
        omega
      · rintro c (rfl | hc)
        · exact ⟨si, le_refl _, rfl⟩
        · obtain ⟨k, hk, he⟩ := h2 c hc
          exact ⟨k, by omega, he⟩

theorem IdAtLevel_inj {rid : String} {a b : Nat} {s : String}
    (ha : IdAtLevel rid a s) (hb : IdAtLevel rid b s) : a = b := by
  rcases ha with h1 | ⟨j, h1⟩ | ⟨j, j', h1⟩ <;>
    rcases hb with h2 | ⟨j2, h2⟩ | ⟨j2, j2', h2⟩
  · exact levelId_inj (h1 ▸ h2 ▸ rfl : levelId rid a = levelId rid b)
  · exact absurd (h1 ▸ h2) (levelId_ne_branchId rid a b j2)
  · exact absurd (h1 ▸ h2) (levelId_ne_subId rid a b j2 j2')
  · exact absurd (h2 ▸ h1) (levelId_ne_branchId rid b a j)
  · exact (branchId_inj (h1 ▸ h2 : branchId rid a j = branchId rid b j2)).1
  · exact absurd (h1 ▸ h2) (branchId_ne_subId rid a j b j2 j2')
  · exact absurd (h2 ▸ h1) (levelId_ne_subId rid b a j j')
  · exact absurd (h2 ▸ h1) (branchId_ne_subId rid b j2 a j j')
  · exact (subId_inj (h1 ▸ h2 : subId rid a j j' = subId rid b j2 j2')).1

theorem parseBranchesGo_indices (rid : String) (li : Nat) (cat : String)
    (branches : List Dom) : ∀ bi ci,
    (parseBranchesGo rid li cat bi ci branches).map (fun c => c.chunk_index) =
      List.range' ci (parseBranchesGo rid li cat bi ci branches).length := by
  induction branches with
  | nil => intro bi ci; simp [parseBranchesGo]
  | cons branch rest ih =>
    intro bi ci
    simp only [parseBranchesGo]
    generalize (if pyStrip branch.getText = "" then "브랜치 " ++ natStr (bi + 1)
      else pyStrip branch.getText) = btitle
    split
    · exact ih (bi + 1) ci
    · rw [List.cons_append]
      simp only [List.map_cons, List.map_append, List.length_cons,
        List.length_append]
      rw [parseSubsGo_indices, ih (bi + 1)]
      have hb : (mkBranchChunk rid li bi ci branch btitle cat).chunk_index
          = ci := rfl
      rw [hb, range'_append_one, ← List.range'_succ]

theorem parseBranchesGo_ids (rid : String) (li : Nat) (cat : String)
    (branches : List Dom) : ∀ bi ci,
    ((parseBranchesGo rid li cat bi ci branches).map (fun c => c.id)).Nodup ∧
    ∀ c ∈ parseBranchesGo rid li cat bi ci branches,
      ∃ k, bi ≤ k ∧ IsBranchFamilyId rid li k c.id := by
  induction branches with
  | nil => intro bi ci; simp [parseBranchesGo]
  | cons branch rest ih =>
    intro bi ci
    simp only [parseBranchesGo]
    generalize (if pyStrip branch.getText = "" then "브랜치 " ++ natStr (bi + 1)
      else pyStrip branch.getText) = btitle
    split
    · obtain ⟨h1, h2⟩ := ih (bi + 1) ci
      refine ⟨h1, fun c hc => ?_⟩
      obtain ⟨k, hk, he⟩ := h2 c hc
      exact ⟨k, by omega, he⟩
    · obtain ⟨hsub1, hsub2⟩ := parseSubsGo_ids rid li bi cat
        ((subCandidatesOfBranch branch).take 3) 0 (ci + 1)
      obtain ⟨hmore1, hmore2⟩ := ih (bi + 1) (ci + 1 +
        (parseSubsGo rid li bi cat 0 (ci + 1)
          ((subCandidatesOfBranch branch).take 3)).length)
      have hbid : (mkBranchChunk rid li bi ci branch btitle cat).id
          = branchId rid li bi := rfl
      rw [List.cons_append]
      constructor
      · rw [List.map_cons, List.map_append]
        apply List.nodup_cons.mpr
        refine ⟨?_, List.Nodup.append hsub1 hmore1 ?_⟩
        · rw [hbid]
          intro hmem
          rcases List.mem_append.1 hmem with hm | hm <;>
            obtain ⟨c, hc, hid⟩ := List.mem_map.1 hm
          · obtain ⟨k, _, he⟩ := hsub2 c hc
            rw [he] at hid
            exact absurd hid (branchId_ne_subId rid li bi li bi k).symm
          · obtain ⟨k, hk, hfam⟩ := hmore2 c hc
            rcases hfam with hf | ⟨j, hf⟩
            · rw [hf] at hid
              have := (branchId_inj hid).2
              omega
            · rw [hf] at hid
              exact absurd hid (branchId_ne_subId rid li bi li k j).symm
        · rw [List.disjoint_left]
          intro a hma hmb
          obtain ⟨c, hc, hid⟩ := List.mem_map.1 hma
          obtain ⟨c', hc', hid'⟩ := List.mem_map.1 hmb
          obtain ⟨k, _, he⟩ := hsub2 c hc
          obtain ⟨k', hk', hfam⟩ := hmore2 c' hc'
          have hcc : c.id = c'.id := hid.trans hid'.symm
          rcases hfam with hf | ⟨j, hf⟩
          · rw [he, hf] at hcc
            exact absurd hcc.symm (branchId_ne_subId rid li k' li bi k)
          · rw [he, hf] at hcc
            have h2 := (subId_inj hcc).2.1
            omega
      · intro c hc
        rcases List.mem_cons.1 hc with rfl | hc2
        · exact ⟨bi, le_refl _, Or.inl hbid⟩
        · rcases List.mem_append.1 hc2 with hm | hm
          · obtain ⟨k, _, he⟩ := hsub2 c hm
            exact ⟨bi, le_refl _, Or.inr ⟨k, he⟩⟩
          · obtain ⟨k, hk, hfam⟩ := hmore2 c hm
            exact ⟨k, by omega, hfam⟩

theorem parseLevelCandidate_indices (rid : String) (li ci : Nat) (cand : Dom) :
    (parseLevelCandidate rid li ci cand).map (fun c => c.chunk_index) =
      List.range' ci (parseLevelCandidate rid li ci cand).length := by
  cases cand with
  | text s => simp [parseLevelCandidate]
  | elem t cls attrs cs =>
    simp only [parseLevelCandidate]
    split
    · simp
    · simp only [List.map_cons, List.length_cons]
      rw [parseBranchesGo_indices, List.range'_succ]
      rfl

theorem parseLevelCandidate_ids (rid : String) (li ci : Nat) (cand : Dom) :
    ((parseLevelCandidate rid li ci cand).map (fun c => c.id)).Nodup ∧
    ∀ c ∈ parseLevelCandidate rid li ci cand, IdAtLevel rid li c.id := by
  cases cand with
  | text s => simp [parseLevelCandidate]
  | elem t cls attrs cs =>
    simp only [parseLevelCandidate]
    split
    · simp
    · obtain ⟨hb1, hb2⟩ := parseBranchesGo_ids rid li
        (extract_category_from_classes _) (branchCandidatesOfLevel _) 0 (ci + 1)
    
      have hlid : ∀ tt cc, (mkLevelChunk rid li ci (Dom.elem t cls attrs cs)
          tt cc).id = levelId rid li := fun _ _ => rfl
      constructor
      · rw [List.map_cons]
        apply List.nodup_cons.mpr
        refine ⟨?_, hb1⟩
        rw [hlid]
        intro hmem
        obtain ⟨c, hc, hid⟩ := List.mem_map.1 hmem
        obtain ⟨k, _, hfam⟩ := hb2 c hc
        rcases hfam with hf | ⟨j, hf⟩
        · rw [hf] at hid
          exact absurd hid.symm (levelId_ne_branchId rid li li k)
        · rw [hf] at hid
          exact absurd hid.symm (levelId_ne_subId rid li li k j)
      · intro c hc
        rcases List.mem_cons.1 hc with rfl | hc2
        · exact Or.inl (hlid _ _)
        · obtain ⟨k, _, hfam⟩ := hb2 c hc2
          rcases hfam with hf | ⟨j, hf⟩
          · exact Or.inr (Or.inl ⟨k, hf⟩)
          · exact Or.inr (Or.inr ⟨k, j, hf⟩)

theorem parseStructuredGo_indices (rid : String) (cands : List Dom) :
    ∀ li ci,
    (parseStructuredGo rid li ci cands).map (fun c => c.chunk_index) =
      List.range' ci (parseStructuredGo rid li ci cands).length := by
  induction cands with
  | nil => intro li ci; simp [parseStructuredGo]
  | cons cand rest ih =>
    intro li ci
    simp only [parseStructuredGo, List.map_append, List.length_append]
    rw [parseLevelCandidate_indices, ih (li + 1), range'_append_one]

theorem parseStructuredGo_ids (rid : String) (cands : List Dom) :
    ∀ li ci,
    ((parseStructuredGo rid li ci cands).map (fun c => c.id)).Nodup ∧
    ∀ c ∈ parseStructuredGo rid li ci cands,
      ∃ k, li ≤ k ∧ IdAtLevel rid k c.id := by
  induction cands with
  | nil => intro li ci; simp [parseStructuredGo]
  | cons cand rest ih =>
    intro li ci
    simp only [parseStructuredGo, List.map_append]
    obtain ⟨hc1, hc2⟩ := parseLevelCandidate_ids rid li ci cand
    obtain ⟨hr1, hr2⟩ := ih (li + 1)
      (ci + (parseLevelCandidate rid li ci cand).length)
    constructor
    · refine List.Nodup.append hc1 hr1 ?_
      rw [List.disjoint_left]
      intro a hma hmb
      obtain ⟨c, hc, hid⟩ := List.mem_map.1 hma
      obtain ⟨c', hc', hid'⟩ := List.mem_map.1 hmb
      obtain ⟨k, hk, hat'⟩ := hr2 c' hc'
      have hat := hc2 c hc
      rw [hid] at hat
      rw [hid'] at hat'
      have := IdAtLevel_inj hat hat'
      omega
    · intro c hc
      rcases List.mem_append.1 hc with hm | hm
      · exact ⟨li, le_refl _, hc2 c hm⟩
      · obtain ⟨k, hk, hat⟩ := hr2 c hm
        exact ⟨k, by omega, hat⟩

theorem mkBasicChunksGo_indices (rid : String) (secs : List (String × String)) :
    ∀ i,
    (mkBasicChunksGo rid i secs).map (fun c => c.chunk_index) =
      List.range' i (mkBasicChunksGo rid i secs).length := by
  induction secs with
  | nil => intro i; simp [mkBasicChunksGo]
  | cons sec rest ih =>
    intro i
    cases sec with
    | mk frag content =>
      simp only [mkBasicChunksGo, List.map_cons, List.length_cons]
      rw [ih (i + 1), List.range'_succ]
      rfl

theorem mkBasicChunksGo_ids (rid : String) (secs : List (String × String)) :
    ∀ i,
    ((mkBasicChunksGo rid i secs).map (fun c => c.id)).Nodup ∧
    ∀ c ∈ mkBasicChunksGo rid i secs, ∃ k, i ≤ k ∧ c.id = chunkId rid k := by
  induction secs with
  | nil => intro i; simp [mkBasicChunksGo]
  | cons sec rest ih =>
    intro i
    cases sec with
    | mk frag content =>
      simp only [mkBasicChunksGo, List.map_cons]
      obtain ⟨h1, h2⟩ := ih (i + 1)
      have hid : (create_basic_chunk rid i frag content).id = chunkId rid i :=
        rfl
      constructor
      · apply List.nodup_cons.mpr
        refine ⟨?_, h1⟩
        rw [hid]
        intro hmem
        obtain ⟨c, hc, hid2⟩ := List.mem_map.1 hmem
        obtain ⟨k, hk, he⟩ := h2 c hc
        rw [he] at hid2
        have := chunkId_inj hid2
        omega
      · intro c hc
        rcases List.mem_cons.1 hc with rfl | hc2
        · exact ⟨i, le_refl _, hid⟩
        · obtain ⟨k, hk, he⟩ := h2 c hc2
          exact ⟨k, by omega, he⟩

theorem parse_structured_content_spec (rid : String) (cands doc : List Dom) :
    ((parse_structured_content rid cands doc).map (fun c => c.id)).Nodup ∧
    (parse_structured_content rid cands doc).map (fun c => c.chunk_index) =
      List.range (parse_structured_content rid cands doc).length := by
  unfold parse_structured_content
  split
  · dsimp only
    split
    · exact ⟨List.nodup_singleton _, rfl⟩
    · obtain ⟨h1, _⟩ := parseStructuredGo_ids rid cands 0 0
      refine ⟨h1, ?_⟩
      rw [parseStructuredGo_indices, List.range_eq_range']
  · dsimp only
    split
    · exact ⟨List.nodup_singleton _, rfl⟩
    · obtain ⟨h1, _⟩ := parseStructuredGo_ids rid cands 0 0
      refine ⟨h1, ?_⟩
      rw [parseStructuredGo_indices, List.range_eq_range']

theorem parse_basic_sections_spec (rid html_content : String) :
    ((parse_basic_sections rid html_content).map (fun c => c.id)).Nodup ∧
    (parse_basic_sections rid html_content).map (fun c => c.chunk_index) =
      List.range (parse_basic_sections rid html_content).length := by
  unfold parse_basic_sections
  obtain ⟨h1, _⟩ := mkBasicChunksGo_ids rid _ 0
  refine ⟨h1, ?_⟩
  rw [mkBasicChunksGo_indices, List.range_eq_range']

/-- **C1.** For every HTML input (any parsed document forest together with
any raw HTML string) and every document id, `parse_html_sections` returns at
least one chunk.  The model is a total function — every internal failure
point of the source (a text node reached by the per-level tag search) is
handled by the corresponding `except` scope and the cascade ends in the
fallback chunk — so no exception reaches the caller. -/
theorem parse_html_sections_nonempty (doc : List Dom)
    (html_content rid : String) :
    1 ≤ (parse_html_sections doc html_content rid).length := by
  unfold parse_html_sections
  dsimp only
  split
  · simp [create_fallback_chunk]
  · next h =>
    exact List.length_pos.mpr (by simpa [List.isEmpty_iff] using h)

/-- **C3.** For every HTML input and document id, the chunks returned by one
`parse_html_sections` call have pairwise-distinct ids, and their
`chunk_index` values, in list order, are exactly `0, 1, 2, ...`. -/
theorem parse_html_sections_ids_and_order (doc : List Dom)
    (html_content rid : String) :
    ((parse_html_sections doc html_content rid).map (fun c => c.id)).Nodup ∧
    (parse_html_sections doc html_content rid).map (fun c => c.chunk_index) =
      List.range (parse_html_sections doc html_content rid).length := by
  unfold parse_html_sections
  dsimp only
  cases hbc : branchCandidates doc with
  | some cands =>
    dsimp only
    split
    · exact ⟨List.nodup_singleton _, rfl⟩
    · exact parse_structured_content_spec rid cands doc
  | none =>
    dsimp only
    split
    · exact ⟨List.nodup_singleton _, rfl⟩
    · exact parse_basic_sections_spec rid html_content

/-- **C8.** `search_chunks_by_tags` keeps a chunk if and only if at least one
supplied tag matches, case-insensitively, at least one of that chunk's tags
in the selected namespace (collection or search); and with an empty tag list
it returns exactly the input list unchanged (identity, not an empty
result). -/
theorem search_by_tags_spec (chunks : List RoadmapChunk)
    (tags : List String) (tag_type : String) :
    search_chunks_by_tags chunks [] tag_type = chunks ∧
    (tags ≠ [] →
      search_chunks_by_tags chunks tags tag_type =
        chunks.filter (fun c =>
          decide (∃ tag ∈ tags,
            ∃ ct ∈ (if tag_type = "collection" then c.collection_tags
                    else c.search_tags),
              pyLower tag = pyLower ct))) := by
  constructor
  · simp [search_chunks_by_tags]
  · intro htags
    have hne : ¬ tags.isEmpty := by
      simpa [List.isEmpty_iff] using htags
    unfold search_chunks_by_tags
    rw [if_neg hne]
    apply List.filter_congr
    intro c _
    rw [Bool.eq_iff_iff]
    show (tags.any fun tag => (List.map pyLower _).contains (pyLower tag)) = true ↔ _
    simp only [List.any_eq_true, List.contains_iff_exists_mem_beq, List.mem_map,
      beq_iff_eq, decide_eq_true_eq]
    constructor
    · rintro ⟨t, ht, x, ⟨ct, hct, rfl⟩, hx⟩
      exact ⟨t, ht, ct, hct, hx⟩
    · rintro ⟨t, ht, ct, hct, h⟩
      exact ⟨t, ht, _, ⟨ct, hct, rfl⟩, h⟩

/-- Witness for `search_by_tags_spec`: on a concrete chunk list, the tag
`"react"` (lower case) matches the stored tag `"React"` and the chunk is
kept. -/
theorem search_by_tags_spec_witness :
    (["react"] ≠ ([] : List String)) ∧
    search_chunks_by_tags [chunkW] ["react"] "search" = [chunkW] := by
  refine ⟨by decide, ?_⟩
  rw [(search_by_tags_spec [chunkW] ["react"] "search").2 (by decide)]
  decide

/-- **C9.** `apply_tags_to_chunk` is pure and deterministic: structurally
equal inputs give structurally equal outputs, every non-tag field of the
input is carried over unchanged (the input itself, being a value of the
model, is never mutated), the returned chunk's tag lists are the
deduplicated union of existing and supplied tags whenever custom tags are
supplied (and are the untouched originals otherwise), and supplied search
tags are also unioned into `metadata.keywords`. -/
theorem apply_tags_spec (c₁ c₂ : RoadmapChunk)
    (a b : Option (List String)) (h : c₁ = c₂) :
    apply_tags_to_chunk c₁ a b = apply_tags_to_chunk c₂ a b ∧
    (apply_tags_to_chunk c₁ a b).id = c₁.id ∧
    (apply_tags_to_chunk c₁ a b).roadmap_id = c₁.roadmap_id ∧
    (apply_tags_to_chunk c₁ a b).content = c₁.content ∧
    (apply_tags_to_chunk c₁ a b).html_fragment = c₁.html_fragment ∧
    (apply_tags_to_chunk c₁ a b).embedding = c₁.embedding ∧
    (apply_tags_to_chunk c₁ a b).chunk_index = c₁.chunk_index ∧
    (truthyList a = true →
      (apply_tags_to_chunk c₁ a b).collection_tags.Nodup ∧
      ∀ t, t ∈ (apply_tags_to_chunk c₁ a b).collection_tags ↔
        t ∈ c₁.collection_tags ∨ t ∈ a.getD []) ∧
    (truthyList a = false →
      (apply_tags_to_chunk c₁ a b).collection_tags = c₁.collection_tags) ∧
    (truthyList b = true →
      ((apply_tags_to_chunk c₁ a b).search_tags.Nodup ∧
       ∀ t, t ∈ (apply_tags_to_chunk c₁ a b).search_tags ↔
         t ∈ c₁.search_tags ∨ t ∈ b.getD []) ∧
      ((apply_tags_to_chunk c₁ a b).metadata.keywords.Nodup ∧
       ∀ t, t ∈ (apply_tags_to_chunk c₁ a b).metadata.keywords ↔
         t ∈ c₁.metadata.keywords ∨ t ∈ b.getD [])) ∧
    (truthyList b = false →
      (apply_tags_to_chunk c₁ a b).search_tags = c₁.search_tags ∧
      (apply_tags_to_chunk c₁ a b).metadata = c₁.metadata) := by
  subst h
  unfold apply_tags_to_chunk
  refine ⟨rfl, ?_⟩
  by_cases ha : truthyList a = true <;> by_cases hb : truthyList b = true <;>
    simp [ha, hb, pySet, List.nodup_dedup, List.mem_dedup, List.mem_append]

/-- **C4.** The synthetic round-trip fragment (`domC4`) parses to exactly 4
chunks — per branch one `level` chunk and one `branch` chunk — with
categories `beginner`/`advanced` and metadata level indices 1 and 2; and,
in general, one branch emits at most 3 `sub_branch` chunks
(`sub_branches[:3]`), each coming from an element whose stripped visible
text has at least 3 characters (shorter candidates are skipped). -/
theorem parse_roundtrip_scenario :
    ((parse_html_sections domC4 (domRenderList domC4) "doc").map
        (fun c => (c.metadata.mtype, c.metadata.category, c.metadata.level)) =
      [(some "level", some "beginner", some 1),
       (some "branch", some "beginner", some 1),
       (some "level", some "advanced", some 2),
       (some "branch", some "advanced", some 2)]) ∧
    (parse_html_sections domC4 (domRenderList domC4) "doc").length = 4 ∧
    ∀ (rid : String) (li bi ci : Nat) (cat : String) (branch : Dom),
      (parseSubsGo rid li bi cat 0 ci
          ((subCandidatesOfBranch branch).take 3)).length ≤ 3 ∧
      ∀ c ∈ parseSubsGo rid li bi cat 0 ci
          ((subCandidatesOfBranch branch).take 3),
        c.metadata.mtype = some "sub_branch" ∧ 3 ≤ c.content.length := by
  refine ⟨by decide, by decide, ?_⟩
  intro rid li bi ci cat branch
  constructor
  · exact le_trans
      (parseSubsGo_len_le rid li bi cat ((subCandidatesOfBranch branch).take 3)
        0 ci)
      (List.length_take_le 3 _)
  · exact parseSubsGo_shape rid li bi cat _ 0 ci

/-- Witness for `parse_roundtrip_scenario`: on a concrete branch with one
sub-node, the sub-branch loop emits one chunk of type `sub_branch`. -/
theorem parse_roundtrip_scenario_witness :
    (parseSubsGo "doc" 0 0 "beginner" 0 1
        ((subCandidatesOfBranch branchW).take 3)).length ≤ 3 ∧
    (mkSubChunk "doc" 0 0 0 1 (Dom.el "div" ["sub-node"] [] [.text "Hooks API"])
        "Hooks API" "beginner").metadata.mtype = some "sub_branch" := by
  have h := parse_roundtrip_scenario.2.2 "doc" 0 0 1 "beginner" branchW
  exact ⟨h.1, (h.2 _ (by decide)).1⟩

/-- **C7.** Parsing `"<html><body></body></html>"` yields exactly one chunk,
of metadata type `fallback`, whose content is the fixed placeholder; and in
general the fallback chunk's content is the document's stripped plain text
truncated to 500 characters with `"..."` appended when longer, and its
`html_fragment` is the raw HTML truncated to 1000 characters with `"..."`
appended when longer. -/
theorem fallback_scenario :
    ((parse_html_sections domEmptyBody "<html><body></body></html>" "doc").map
        (fun c => (c.content, c.html_fragment, c.metadata.mtype)) =
      [("파싱할 수 있는 내용이 없습니다.", "<html><body></body></html>",
        some "fallback")]) ∧
    ∀ (rid : String) (doc : List Dom) (html_content : String),
      (create_fallback_chunk rid doc html_content).length = 1 ∧
      ∀ c ∈ create_fallback_chunk rid doc html_content,
        (pyStrip (getTextList doc) ≠ "" →
          (500 < (pyStrip (getTextList doc)).length →
            c.content = pyTake (pyStrip (getTextList doc)) 500 ++ "...") ∧
          ((pyStrip (getTextList doc)).length ≤ 500 →
            c.content = pyStrip (getTextList doc))) ∧
        (1000 < html_content.length →
          c.html_fragment = pyTake html_content 1000 ++ "...") ∧
        (html_content.length ≤ 1000 → c.html_fragment = html_content) := by
  refine ⟨by decide, ?_⟩
  intro rid doc html_content
  refine ⟨rfl, ?_⟩
  intro c hc
  simp only [create_fallback_chunk, List.mem_singleton] at hc
  have hcontent : c.content = truncate_with_ellipsis
      (if pyStrip (getTextList doc) = "" then "파싱할 수 있는 내용이 없습니다."
       else pyStrip (getTextList doc)) 500 := by
    subst hc; rfl
  have hfrag : c.html_fragment = truncate_with_ellipsis html_content 1000 := by
    subst hc; rfl
  refine ⟨?_, ?_, ?_⟩
  · intro ht
    rw [hcontent, if_neg ht]
    constructor
    · intro h5
      rw [truncate_with_ellipsis, if_pos h5]
    · intro h5
      rw [truncate_with_ellipsis, if_neg (by omega)]
  · intro h10
    rw [hfrag, truncate_with_ellipsis, if_pos h10]
  · intro h10
    rw [hfrag, truncate_with_ellipsis, if_neg (by omega)]

/-- Witness for `fallback_scenario`: a text-only document below the content
threshold together with a 1001-character raw HTML string above the fragment
threshold. -/
theorem fallback_scenario_witness :
    pyStrip (getTextList domTextW) ≠ "" ∧
    (pyStrip (getTextList domTextW)).length ≤ 500 ∧
    1000 < longHtmlW.length ∧
    ∀ c ∈ create_fallback_chunk "doc" domTextW longHtmlW,
      c.content = pyStrip (getTextList domTextW) ∧
      c.html_fragment = pyTake longHtmlW 1000 ++ "..." := by
  have hne : pyStrip (getTextList domTextW) ≠ "" := by decide
  have h5 : (pyStrip (getTextList domTextW)).length ≤ 500 := by decide
  have h10 : 1000 < longHtmlW.length := by
    show 1000 < (List.replicate 1001 'b').length
    rw [List.length_replicate]
    omega
  refine ⟨hne, h5, h10, ?_⟩
  intro c hc
  have h := (fallback_scenario.2 "doc" domTextW longHtmlW).2 c hc
  exact ⟨(h.1 hne).2 h5, h.2.1 h10⟩

/-- Witness for `apply_tags_spec`: instantiated on a concrete chunk with a
duplicated search tag and concrete custom tag lists. -/
theorem apply_tags_spec_witness :
    chunkW = chunkW ∧
    (apply_tags_to_chunk chunkW (some ["x"]) (some ["y"])).search_tags.Nodup := by
  refine ⟨rfl, ?_⟩
  have h := (apply_tags_spec chunkW chunkW (some ["x"]) (some ["y"]) rfl)
  exact ((h.2.2.2.2.2.2.2.2.2.1 (by decide)).1).1

/-! ## The hierarchy reconstructor fold (towards C5) -/

/-- An association list's `lookup` succeeds exactly on its keys. -/
theorem lookup_mem_keys (d : List (Nat × Phase)) (l : Nat) :
    (d.lookup l).isSome ↔ l ∈ d.map Prod.fst := by
  induction d with
  | nil => simp
  | cons kv rest ih =>
    simp only [List.lookup, List.map_cons, List.mem_cons]
    by_cases h : l = kv.1
    · subst h; simp
    · have hb : (l == kv.1) = false := by simpa using h
      simp [hb, ih, h]

/-- Appending a topic never changes the key list of the phase dictionary. -/
theorem dictAppendTopic_keys (d : List (Nat × Phase)) (l : Nat) (t : Topic) :
    (dictAppendTopic d l t).map Prod.fst = d.map Prod.fst := by
  simp only [dictAppendTopic, List.map_map]
  refine List.map_congr_left (fun kv _ => ?_)
  by_cases h : kv.1 = l <;> simp [Function.comp, h]

/-- Members of `dictInsertIfAbsent`: an old entry, or the fresh one when the
key was absent. -/
theorem mem_dictInsertIfAbsent {d : List (Nat × Phase)} {l : Nat} {ph : Phase}
    {kv : Nat × Phase} (h : kv ∈ dictInsertIfAbsent d l ph) :
    kv ∈ d ∨ (kv = (l, ph) ∧ d.lookup l = none) := by
  unfold dictInsertIfAbsent at h
  split at h
  · exact Or.inl h
  · next hn =>
    rcases List.mem_append.mp h with h' | h'
    · exact Or.inl h'
    · exact Or.inr ⟨List.mem_singleton.mp h',
        Option.not_isSome_iff_eq_none.mp hn⟩

/-- Loop invariant of `convert_chunks_to_roadmap_data`: after folding
`convertStep` over the remaining chunks, the prerequisite list is the
filtered content list, the phase-dictionary keys are the distinct levels
seen so far in first-encounter order, and each entry holds duration `""`,
the level's chunks as topics in encounter order, and the title taken from
the level's first chunk. -/
theorem convert_fold_inv (rest : List RoadmapChunk) :
    ∀ (processed : List RoadmapChunk) (prereqs resources : List String)
      (dict : List (Nat × Phase)),
    prereqs = (processed.filter isPrereqChunk).map RoadmapChunk.content →
    (dict.map Prod.fst).Nodup →
    (∀ l, l ∈ dict.map Prod.fst ↔ l ∈ processed.map levelOf) →
    (∀ kv ∈ dict, kv.2.duration = "" ∧
      kv.2.topics = (processed.filter (atLevel kv.1)).map mkTopic ∧
      ∃ c, processed.find? (atLevel kv.1) = some c ∧
        kv.2.title = phaseTitleOf c kv.1) →
    ((rest.foldl convertStep (prereqs, resources, dict)).1 =
       ((processed ++ rest).filter isPrereqChunk).map RoadmapChunk.content ∧
     ((rest.foldl convertStep (prereqs, resources, dict)).2.2.map
        Prod.fst).Nodup ∧
     (∀ l, l ∈ (rest.foldl convertStep
          (prereqs, resources, dict)).2.2.map Prod.fst ↔
        l ∈ (processed ++ rest).map levelOf) ∧
     (∀ kv ∈ (rest.foldl convertStep (prereqs, resources, dict)).2.2,
       kv.2.duration = "" ∧
       kv.2.topics = ((processed ++ rest).filter (atLevel kv.1)).map mkTopic ∧
       ∃ c, (processed ++ rest).find? (atLevel kv.1) = some c ∧
         kv.2.title = phaseTitleOf c kv.1)) := by
  induction rest with
  | nil =>
    intro processed prereqs resources dict h1 h2 h3 h4
    simp only [List.foldl_nil, List.append_nil]
    exact ⟨h1, h2, h3, h4⟩
  | cons ch rest ih =>
    intro processed prereqs resources dict h1 h2 h3 h4
    rw [List.foldl_cons]
    have hstep : convertStep (prereqs, resources, dict) ch =
        (if isPrereqChunk ch then prereqs ++ [ch.content] else prereqs,
         if ch.metadata.resources.isEmpty then resources
           else resources ++ ch.metadata.resources.map resDisplay,
         dictAppendTopic (dictInsertIfAbsent dict (levelOf ch)
           { title := phaseTitleOf ch (levelOf ch), duration := "",
             topics := [] })
           (levelOf ch) (mkTopic ch)) := rfl
    rw [hstep]
    have hchL : atLevel (levelOf ch) ch = true := by simp [atLevel]
    have g1 : (if isPrereqChunk ch then prereqs ++ [ch.content] else prereqs) =
        ((processed ++ [ch]).filter isPrereqChunk).map RoadmapChunk.content := by
      rw [List.filter_append, List.map_append, ← h1]
      by_cases h : isPrereqChunk ch <;> simp [h]
    have g2 : ((dictAppendTopic (dictInsertIfAbsent dict (levelOf ch)
          { title := phaseTitleOf ch (levelOf ch), duration := "",
            topics := [] })
          (levelOf ch) (mkTopic ch)).map Prod.fst).Nodup := by
      rw [dictAppendTopic_keys]
      unfold dictInsertIfAbsent
      split
      · exact h2
      · next hn =>
        have hLnot : levelOf ch ∉ dict.map Prod.fst := fun hmem =>
          hn ((lookup_mem_keys dict (levelOf ch)).mpr hmem)
        simp only [List.map_append, List.map_cons, List.map_nil]
        rw [← List.concat_eq_append]
        exact List.Nodup.concat hLnot h2
    have g3 : ∀ l, l ∈ (dictAppendTopic (dictInsertIfAbsent dict (levelOf ch)
          { title := phaseTitleOf ch (levelOf ch), duration := "",
            topics := [] })
          (levelOf ch) (mkTopic ch)).map Prod.fst ↔
        l ∈ (processed ++ [ch]).map levelOf := by
      intro l
      rw [dictAppendTopic_keys]
      simp only [List.map_append, List.map_cons, List.map_nil,
        List.mem_append, List.mem_singleton]
      unfold dictInsertIfAbsent
      split
      · next hs =>
        constructor
        · intro hm; exact Or.inl ((h3 l).mp hm)
        · rintro (hm | rfl)
          · exact (h3 l).mpr hm
          · exact (lookup_mem_keys dict (levelOf ch)).mp hs
      · simp only [List.map_append, List.map_cons, List.map_nil,
          List.mem_append, List.mem_singleton]
        rw [h3 l]
    have g4 : ∀ kv ∈ dictAppendTopic (dictInsertIfAbsent dict (levelOf ch)
          { title := phaseTitleOf ch (levelOf ch), duration := "",
            topics := [] })
          (levelOf ch) (mkTopic ch),
        kv.2.duration = "" ∧
        kv.2.topics = ((processed ++ [ch]).filter (atLevel kv.1)).map mkTopic ∧
        ∃ c, (processed ++ [ch]).find? (atLevel kv.1) = some c ∧
          kv.2.title = phaseTitleOf c kv.1 := by
      intro kv hkv
      unfold dictAppendTopic at hkv
      rcases List.mem_map.mp hkv with ⟨kv', hkv', hkveq⟩
      have hkv'' := mem_dictInsertIfAbsent hkv'
      by_cases hkey : kv'.1 = levelOf ch
      · rw [if_pos hkey] at hkveq
        subst hkveq
        rcases hkv'' with hmem | ⟨hkv'eq, hnone⟩
        · obtain ⟨hdur, htop, c0, hfind, htitle⟩ := h4 kv' hmem
          refine ⟨hdur, ?_, c0, ?_, htitle⟩
          · have hch : atLevel kv'.1 ch = true := by
              simp [atLevel, hkey]
            rw [List.filter_append, List.map_append, ← htop]
            simp [hch]
          · rw [List.find?_append, hfind]; rfl
        · subst hkv'eq
          have hnotmem : levelOf ch ∉ processed.map levelOf := by
            intro hmem
            have := (lookup_mem_keys dict (levelOf ch)).mpr ((h3 _).mpr hmem)
            rw [hnone] at this
            exact absurd this (by simp)
          have hnotat : ∀ a ∈ processed, ¬ atLevel (levelOf ch) a = true := by
            intro a ha hpa
            exact hnotmem (List.mem_map.mpr ⟨a, ha, by simpa [atLevel] using hpa⟩)
          have hfilter : processed.filter (atLevel (levelOf ch)) = [] :=
            List.filter_eq_nil_iff.mpr hnotat
          have hfindnone : processed.find? (atLevel (levelOf ch)) = none :=
            List.find?_eq_none.mpr hnotat
          refine ⟨rfl, ?_, ch, ?_, rfl⟩
          · rw [List.filter_append, hfilter]
            simp [hchL]
          · rw [List.find?_append, hfindnone]
            simp [hchL]
      · rw [if_neg hkey] at hkveq
        subst hkveq
        rcases hkv'' with hmem | ⟨hkv'eq, _⟩
        · obtain ⟨hdur, htop, c0, hfind, htitle⟩ := h4 kv' hmem
          have hch : atLevel kv'.1 ch = false := by
            simp only [atLevel, decide_eq_false_iff_not]
            exact fun h => hkey (h ▸ rfl)
          refine ⟨hdur, ?_, c0, ?_, htitle⟩
          · rw [List.filter_append, List.map_append, ← htop]
            simp [hch]
          · rw [List.find?_append, hfind]; rfl
        · exact absurd (congrArg Prod.fst hkv'eq) (by simpa using hkey)
    have hmain := ih (processed ++ [ch])
      (if isPrereqChunk ch then prereqs ++ [ch.content] else prereqs)
      (if ch.metadata.resources.isEmpty then resources
        else resources ++ ch.metadata.resources.map resDisplay)
      (dictAppendTopic (dictInsertIfAbsent dict (levelOf ch)
        { title := phaseTitleOf ch (levelOf ch), duration := "",
          topics := [] })
        (levelOf ch) (mkTopic ch)) g1 g2 g3 g4
    rw [List.append_assoc, List.singleton_append] at hmain
    exact hmain

/-- C5: `convert_chunks_to_roadmap_data` puts the content of every chunk
classified as a prerequisite (type `prerequisite`/`requirement`, or `사전`
in the section title) into `prerequisites`, and groups chunks by
`metadata.get("level", 1)` into phases sorted strictly ascending by level,
each chunk appended as one topic in encounter order (the source has no
`continue` after the prerequisite branch, so prerequisite chunks are
grouped too — consistent with the claim's sentences).  In particular three
non-prerequisite chunks at levels 1, 1, 2 produce exactly two phases in
ascending level order, the level-1 phase holding both topics in encounter
order. -/
theorem convert_chunks_roadmap_spec :
    (∀ (chunks : List RoadmapChunk) (mt : String),
      (convert_chunks_to_roadmap_data chunks mt).prerequisites =
        (chunks.filter isPrereqChunk).map RoadmapChunk.content ∧
      ∃ levels : List Nat,
        List.Sorted (fun a b => a < b) levels ∧
        (∀ l, l ∈ levels ↔ l ∈ chunks.map levelOf) ∧
        List.Forall₂ (fun l ph =>
          ph.duration = "" ∧
          ph.topics = (chunks.filter (atLevel l)).map mkTopic ∧
          ∃ c, chunks.find? (atLevel l) = some c ∧ ph.title = phaseTitleOf c l)
          levels (convert_chunks_to_roadmap_data chunks mt).phases) ∧
    (convert_chunks_to_roadmap_data
        [scenC 1 "기초" "c1", scenC 1 "중급" "c2", scenC 2 "심화" "c3"]
        "T") =
      ({ main_topic := "T", prerequisites := []
         phases := [{ title := "기초", duration := ""
                      topics := [mkTopic (scenC 1 "기초" "c1"),
                                 mkTopic (scenC 1 "중급" "c2")] },
                    { title := "심화", duration := ""
                      topics := [mkTopic (scenC 2 "심화" "c3")] }]
         resources := [] } : RoadmapData) := by
  constructor
  · intro chunks mt
    have hinv := convert_fold_inv chunks [] [] [] []
      rfl (by simp) (by simp) (by simp)
    simp only [List.nil_append] at hinv
    obtain ⟨hpre, hnodup, hmem, hkv⟩ := hinv
    refine ⟨hpre, (chunks.foldl convertStep ([], [], [])).2.2.mergeSort
      (fun a b => decide (a.1 ≤ b.1)) |>.map Prod.fst, ?_, ?_, ?_⟩
    · have hperm := List.mergeSort_perm
        (chunks.foldl convertStep ([], [], [])).2.2
        (fun a b => decide (a.1 ≤ b.1))
      have hsorted := @List.sorted_mergeSort (Nat × Phase)
        (fun a b => decide (a.1 ≤ b.1))
        (fun a b c hab hbc => by
          simp only [decide_eq_true_eq] at hab hbc ⊢; omega)
        (fun a b => by
          simp only [Bool.or_eq_true, decide_eq_true_eq]; omega)
        (chunks.foldl convertStep ([], [], [])).2.2
      have hnd : ((chunks.foldl convertStep ([], [], [])).2.2.mergeSort
          (fun a b => decide (a.1 ≤ b.1)) |>.map Prod.fst).Nodup :=
        ((hperm.map Prod.fst).symm).nodup hnodup
      rw [List.Sorted, List.pairwise_map]
      have hne := List.pairwise_map.mp hnd
      exact (hsorted.and hne).imp (fun hab => by
        obtain ⟨hle, hne⟩ := hab
        simp only [decide_eq_true_eq] at hle
        omega)
    · intro l
      have hperm := List.mergeSort_perm
        (chunks.foldl convertStep ([], [], [])).2.2
        (fun a b => decide (a.1 ≤ b.1))
      rw [(hperm.map Prod.fst).mem_iff]
      exact hmem l
    · have hphases : (convert_chunks_to_roadmap_data chunks mt).phases =
          ((chunks.foldl convertStep ([], [], [])).2.2.mergeSort
            (fun a b => decide (a.1 ≤ b.1))).map Prod.snd := rfl
      rw [hphases, List.forall₂_map_left_iff, List.forall₂_map_right_iff,
        List.forall₂_same]
      intro kv hkvmem
      exact hkv kv ((List.mergeSort_perm _ _).mem_iff.mp hkvmem)
  · have hfold : ([scenC 1 "기초" "c1", scenC 1 "중급" "c2",
        scenC 2 "심화" "c3"].foldl convertStep ([], [], [])) =
        ([], [],
         [(1, { title := "기초", duration := ""
                topics := [mkTopic (scenC 1 "기초" "c1"),
                           mkTopic (scenC 1 "중급" "c2")] }),
          (2, { title := "심화", duration := ""
                topics := [mkTopic (scenC 2 "심화" "c3")] })]) := by rfl
    show ({ main_topic := "T"
            prerequisites := ([scenC 1 "기초" "c1", scenC 1 "중급" "c2",
              scenC 2 "심화" "c3"].foldl convertStep ([], [], [])).1
            phases := (([scenC 1 "기초" "c1", scenC 1 "중급" "c2",
              scenC 2 "심화" "c3"].foldl convertStep
                ([], [], [])).2.2.mergeSort
                (fun a b => decide (a.1 ≤ b.1))).map Prod.snd
            resources := ([scenC 1 "기초" "c1", scenC 1 "중급" "c2",
              scenC 2 "심화" "c3"].foldl convertStep ([], [], [])).2.1 }
          : RoadmapData) = _
    rw [hfold]
    simp [List.mergeSort]

/-! ## The search dedup fold (towards C6) -/

/-- An association list's `lookup` succeeds exactly on its keys (generic
version, used for the dedup dictionary). -/
theorem lookup_isSome_iff_mem {α β : Type} [BEq α] [LawfulBEq α]
    (d : List (α × β)) (l : α) :
    (d.lookup l).isSome ↔ l ∈ d.map Prod.fst := by
  induction d with
  | nil => simp
  | cons kv rest ih =>
    simp only [List.lookup, List.map_cons, List.mem_cons]
    cases hb : l == kv.1 with
    | true => simp [eq_of_beq hb]
    | false =>
      have hne : ¬ l = kv.1 := fun h => by simp [h] at hb
      simp [hb, ih, hne]

/-- A successful `lookup` returns a stored pair. -/
theorem lookup_eq_some_mem {α β : Type} [BEq α] [LawfulBEq α]
    {d : List (α × β)} {l : α} {v : β} (h : d.lookup l = some v) :
    (l, v) ∈ d := by
  induction d with
  | nil => simp at h
  | cons kv rest ih =>
    simp only [List.lookup] at h
    cases hb : l == kv.1 with
    | true =>
      rw [hb] at h
      simp only [Option.some.injEq] at h
      subst h
      exact List.mem_cons.mpr (Or.inl (by rw [eq_of_beq hb]))
    | false =>
      rw [hb] at h
      exact List.mem_cons.mpr (Or.inr (ih h))

/-- With distinct keys, `lookup` of a stored pair's key returns its value. -/
theorem lookup_of_mem_nodup {α β : Type} [BEq α] [LawfulBEq α]
    {d : List (α × β)} (hnd : (d.map Prod.fst).Nodup) {kv : α × β}
    (hm : kv ∈ d) : d.lookup kv.1 = some kv.2 := by
  induction d with
  | nil => simp at hm
  | cons kv' rest ih =>
    simp only [List.map_cons, List.nodup_cons] at hnd
    rcases List.mem_cons.mp hm with h | h
    · subst h
      simp [List.lookup]
    · have hne : ¬ kv.1 = kv'.1 := by
        intro he
        exact hnd.1 (he ▸ List.mem_map.mpr ⟨kv, h, rfl⟩)
      have hb : (kv.1 == kv'.1) = false := by simpa using hne
      simp only [List.lookup, hb]
      exact ih hnd.2 h

/-- Loop invariant of the dedup loop of `search_and_generate_html`: the
accumulated dictionary has distinct keys — exactly the chunk ids seen so
far in first-encounter order — and each entry stores a seen match with that
id carrying the maximum similarity among the seen matches with that id. -/
theorem dedup_fold_inv (rest : List SearchMatch) :
    ∀ (processed : List SearchMatch) (acc : List (String × SearchMatch)),
    (acc.map Prod.fst).Nodup →
    (∀ l, l ∈ acc.map Prod.fst ↔
      l ∈ processed.map (fun m => m.chunk.id)) →
    (∀ kv ∈ acc, kv.1 = kv.2.chunk.id ∧ kv.2 ∈ processed ∧
      ∀ m ∈ processed, m.chunk.id = kv.1 →
        m.similarity ≤ kv.2.similarity) →
    (((rest.foldl dedupStep acc).map Prod.fst).Nodup ∧
     (∀ l, l ∈ (rest.foldl dedupStep acc).map Prod.fst ↔
        l ∈ (processed ++ rest).map (fun m => m.chunk.id)) ∧
     (∀ kv ∈ rest.foldl dedupStep acc, kv.1 = kv.2.chunk.id ∧
       kv.2 ∈ processed ++ rest ∧
       ∀ m ∈ processed ++ rest, m.chunk.id = kv.1 →
         m.similarity ≤ kv.2.similarity)) := by
  induction rest with
  | nil =>
    intro processed acc h1 h2 h3
    simp only [List.foldl_nil, List.append_nil]
    exact ⟨h1, h2, h3⟩
  | cons item rest ih =>
    intro processed acc h1 h2 h3
    rw [List.foldl_cons]
    have hrepl_keys : (acc.map (fun kv =>
        if kv.1 = item.chunk.id then (kv.1, item) else kv)).map
          Prod.fst = acc.map Prod.fst := by
      simp only [List.map_map]
      refine List.map_congr_left (fun kv _ => ?_)
      by_cases h : kv.1 = item.chunk.id <;> simp [Function.comp, h]
    have g1 : ((dedupStep acc item).map Prod.fst).Nodup := by
      unfold dedupStep
      split
      · next hlk =>
        have hnot : item.chunk.id ∉ acc.map Prod.fst := by
          intro hmem
          have := (lookup_isSome_iff_mem acc item.chunk.id).mpr hmem
          rw [hlk] at this
          exact absurd this (by simp)
        simp only [List.map_append, List.map_cons, List.map_nil]
        rw [← List.concat_eq_append]
        exact List.Nodup.concat hnot h1
      · next prev hlk =>
        split
        · rw [hrepl_keys]
          exact h1
        · exact h1
    have g2 : ∀ l, l ∈ (dedupStep acc item).map Prod.fst ↔
        l ∈ (processed ++ [item]).map (fun m => m.chunk.id) := by
      intro l
      simp only [List.map_append, List.map_cons, List.map_nil,
        List.mem_append, List.mem_singleton]
      unfold dedupStep
      split
      · next hlk =>
        simp only [List.map_append, List.map_cons, List.map_nil,
          List.mem_append, List.mem_singleton]
        rw [h2 l]
      · next prev hlk =>
        have hmemid : item.chunk.id ∈ acc.map Prod.fst :=
          (lookup_isSome_iff_mem acc item.chunk.id).mp (by simp [hlk])
        have hiff : l ∈ acc.map Prod.fst ↔
            (l ∈ processed.map (fun m => m.chunk.id) ∨ l = item.chunk.id) := by
          rw [h2 l]
          constructor
          · exact Or.inl
          · rintro (hm | rfl)
            · exact hm
            · exact (h2 _).mp hmemid
        split
        · rw [hrepl_keys]
          exact hiff
        · exact hiff
    have g3 : ∀ kv ∈ dedupStep acc item, kv.1 = kv.2.chunk.id ∧
        kv.2 ∈ processed ++ [item] ∧
        ∀ m ∈ processed ++ [item], m.chunk.id = kv.1 →
          m.similarity ≤ kv.2.similarity := by
      intro kv hkv
      unfold dedupStep at hkv
      split at hkv
      · next hlk =>
        rcases List.mem_append.mp hkv with hold | hnew
        · obtain ⟨hkey, hmem, hmax⟩ := h3 kv hold
          refine ⟨hkey, List.mem_append.mpr (Or.inl hmem), ?_⟩
          intro m hm hid
          rcases List.mem_append.mp hm with hm | hm
          · exact hmax m hm hid
          · rw [List.mem_singleton] at hm
            subst hm
            exfalso
            have hin : kv.1 ∈ acc.map Prod.fst :=
              List.mem_map.mpr ⟨kv, hold, rfl⟩
            rw [← hid] at hin
            have := (lookup_isSome_iff_mem acc m.chunk.id).mpr hin
            rw [hlk] at this
            exact absurd this (by simp)
        · rw [List.mem_singleton] at hnew
          subst hnew
          refine ⟨rfl, List.mem_append.mpr (Or.inr (by simp)), ?_⟩
          intro m hm hid
          rcases List.mem_append.mp hm with hm | hm
          · exfalso
            have hin : item.chunk.id ∈ processed.map (fun m => m.chunk.id) :=
              List.mem_map.mpr ⟨m, hm, hid⟩
            have := (lookup_isSome_iff_mem acc item.chunk.id).mpr
              ((h2 _).mpr hin)
            rw [hlk] at this
            exact absurd this (by simp)
          · rw [List.mem_singleton] at hm
            subst hm
            exact le_refl _
      · next prev hlk =>
        have hprevmem : (item.chunk.id, prev) ∈ acc := lookup_eq_some_mem hlk
        obtain ⟨hpkey, hpmem, hpmax⟩ := h3 (item.chunk.id, prev) hprevmem
        split at hkv
        · next hlt =>
          rcases List.mem_map.mp hkv with ⟨kv', hkv', hkveq⟩
          by_cases hkey : kv'.1 = item.chunk.id
          · rw [if_pos hkey] at hkveq
            subst hkveq
            refine ⟨hkey, List.mem_append.mpr (Or.inr (by simp)), ?_⟩
            intro m hm hid
            rcases List.mem_append.mp hm with hm | hm
            · have := hpmax m hm (by rw [hkey] at hid; exact hid)
              exact le_of_lt (lt_of_le_of_lt this hlt)
            · rw [List.mem_singleton] at hm
              subst hm
              exact le_refl _
          · rw [if_neg hkey] at hkveq
            subst hkveq
            obtain ⟨hk, hmem, hmax⟩ := h3 kv' hkv'
            refine ⟨hk, List.mem_append.mpr (Or.inl hmem), ?_⟩
            intro m hm hid
            rcases List.mem_append.mp hm with hm | hm
            · exact hmax m hm hid
            · rw [List.mem_singleton] at hm
              subst hm
              exact absurd hid (fun h => hkey (h ▸ rfl))
        · next hnlt =>
          obtain ⟨hk, hmem, hmax⟩ := h3 kv hkv
          refine ⟨hk, List.mem_append.mpr (Or.inl hmem), ?_⟩
          intro m hm hid
          rcases List.mem_append.mp hm with hm | hm
          · exact hmax m hm hid
          · rw [List.mem_singleton] at hm
            subst hm
            by_cases hsame : kv.1 = m.chunk.id
            · have hkveq : kv.2 = prev := by
                have h1' := lookup_of_mem_nodup h1 hkv
                rw [hsame, hlk] at h1'
                exact (Option.some.inj h1').symm
              rw [hkveq]
              exact le_of_not_lt hnlt
            · exact absurd hid (fun h => hsame (by rw [← h]))
    have hnext := ih (processed ++ [item]) (dedupStep acc item) g1 g2 g3
    rw [List.append_assoc, List.singleton_append] at hnext
    exact hnext

/-- C6: the search pipeline of `search_and_generate_html` keeps exactly the
matches whose similarity reaches the threshold, sorts them descending by
similarity (stable), truncates to the top 20, and deduplicates by chunk id:
the final list is again sorted descending, holds at most one entry per
chunk id, consists of top-20 matches only, and for every top-20 match some
kept entry has the same id and at least its score — so of two same-id
matches with different scores exactly one survives, with the maximum. -/
theorem search_dedup_spec (query : String) (docs : List RoadmapDocument)
    (threshold : ℚ) :
    (∀ m, m ∈ search_relevant_chunks query docs threshold ↔
      (threshold ≤ m.similarity ∧ ∃ document ∈ docs,
        m.chunk ∈ document.chunks ∧ m.document_title = document.title ∧
        m.similarity = search_similarity query m.chunk)) ∧
    (∃ sorted : List SearchMatch,
      sorted.Perm (search_relevant_chunks query docs threshold) ∧
      List.Pairwise (fun a b => b.similarity ≤ a.similarity) sorted ∧
      search_top_chunks query docs threshold = sorted.take 20) ∧
    List.Pairwise (fun a b => b.similarity ≤ a.similarity)
      (search_unique_sorted query docs threshold) ∧
    ((search_unique_sorted query docs threshold).map
      (fun m => m.chunk.id)).Nodup ∧
    (∀ m ∈ search_unique_sorted query docs threshold,
      m ∈ search_top_chunks query docs threshold) ∧
    (∀ m ∈ search_top_chunks query docs threshold,
      ∃ m' ∈ search_unique_sorted query docs threshold,
        m'.chunk.id = m.chunk.id ∧ m.similarity ≤ m'.similarity) := by
  have htrans : ∀ a b c : SearchMatch, descBySim a b = true →
      descBySim b c = true → descBySim a c = true := by
    intro a b c hab hbc
    simp only [descBySim, decide_eq_true_eq] at hab hbc ⊢
    exact le_trans hbc hab
  have htotal : ∀ a b : SearchMatch,
      (descBySim a b || descBySim b a) = true := by
    intro a b
    simp only [descBySim, Bool.or_eq_true, decide_eq_true_eq]
    exact le_total b.similarity a.similarity
  have hinv := dedup_fold_inv (search_top_chunks query docs threshold)
    [] [] (by simp) (by simp) (by simp)
  simp only [List.nil_append] at hinv
  obtain ⟨hnd, hmemiff, hentries⟩ := hinv
  have huniq : search_unique_sorted query docs threshold =
      (((search_top_chunks query docs threshold).foldl dedupStep []).map
        Prod.snd).mergeSort descBySim := rfl
  have hperm : (search_unique_sorted query docs threshold).Perm
      (((search_top_chunks query docs threshold).foldl dedupStep []).map
        Prod.snd) := by
    rw [huniq]
    exact List.mergeSort_perm _ _
  refine ⟨?_, ?_, ?_, ?_, ?_, ?_⟩
  · intro m
    constructor
    · intro hm
      rcases List.mem_flatMap.mp hm with ⟨document, hdoc, hmem⟩
      rcases List.mem_filterMap.mp hmem with ⟨chunk, hchunk, heq⟩
      dsimp only at heq
      split at heq
      · next hth =>
        cases heq
        exact ⟨hth, document, hdoc, hchunk, rfl, rfl⟩
      · exact absurd heq (by simp)
    · intro hm
      obtain ⟨mc, ms, mt⟩ := m
      obtain ⟨hth, document, hdoc, hchunk, htitle, hsim⟩ := hm
      refine List.mem_flatMap.mpr ⟨document, hdoc,
        List.mem_filterMap.mpr ⟨mc, hchunk, ?_⟩⟩
      dsimp only at hth hsim htitle ⊢
      rw [if_pos (hsim ▸ hth)]
      rw [← hsim, htitle]
  · refine ⟨(search_relevant_chunks query docs threshold).mergeSort descBySim,
      List.mergeSort_perm _ _, ?_, rfl⟩
    exact (List.sorted_mergeSort htrans htotal _).imp (fun h => by
      simpa [descBySim] using h)
  · rw [huniq]
    exact (List.sorted_mergeSort htrans htotal _).imp (fun h => by
      simpa [descBySim] using h)
  · have hids : (((search_top_chunks query docs threshold).foldl dedupStep
        []).map Prod.snd).map (fun m => m.chunk.id) =
        ((search_top_chunks query docs threshold).foldl dedupStep []).map
          Prod.fst := by
      simp only [List.map_map]
      exact List.map_congr_left (fun kv hkv => ((hentries kv hkv).1).symm)
    have := (hperm.map (fun m => m.chunk.id)).symm.nodup
    apply this
    rw [hids]
    exact hnd
  · intro m hm
    have hm' := hperm.mem_iff.mp hm
    rcases List.mem_map.mp hm' with ⟨kv, hkv, hkveq⟩
    subst hkveq
    exact (hentries kv hkv).2.1
  · intro m hm
    have hidmem : m.chunk.id ∈
        ((search_top_chunks query docs threshold).foldl dedupStep []).map
          Prod.fst :=
      (hmemiff m.chunk.id).mpr (List.mem_map.mpr ⟨m, hm, rfl⟩)
    rcases List.mem_map.mp hidmem with ⟨kv, hkv, hkveq⟩
    obtain ⟨hk, hmemtop, hmax⟩ := hentries kv hkv
    refine ⟨kv.2, hperm.symm.mem_iff.mp (List.mem_map.mpr ⟨kv, hkv, rfl⟩),
      ?_, ?_⟩
    · rw [← hk, hkveq]
    · exact hmax m hm hkveq.symm

/-! ## The React parser's list invariant (towards C10) and the two
renderers (C2) -/

/-- `ParentsFrom` is monotone in the available identifiers. -/
theorem parentsFrom_mono {l : List RoadmapNode} :
    ∀ {avail avail' : List String}, (∀ a ∈ avail, a ∈ avail') →
    ParentsFrom avail l → ParentsFrom avail' l := by
  induction l with
  | nil => intro _ _ _ _; trivial
  | cons n rest ih =>
    intro avail avail' hsub h
    obtain ⟨⟨p, hp, hpid⟩, hrest⟩ := h
    refine ⟨⟨p, hsub p hp, hpid⟩, ?_⟩
    refine ih ?_ hrest
    intro a ha
    rcases List.mem_append.mp ha with ha | ha
    · exact List.mem_append.mpr (Or.inl (hsub a ha))
    · exact List.mem_append.mpr (Or.inr ha)

/-- `ParentsFrom` composes across an append. -/
theorem parentsFrom_append {l2 : List RoadmapNode} : ∀ {l1 : List RoadmapNode}
    {avail : List String}, ParentsFrom avail l1 →
    ParentsFrom (avail ++ l1.map (fun n => n.id)) l2 →
    ParentsFrom avail (l1 ++ l2) := by
  intro l1
  induction l1 with
  | nil =>
    intro avail _ h2
    simpa using h2
  | cons n rest ih =>
    intro avail h1 h2
    obtain ⟨hp, hrest⟩ := h1
    refine ⟨hp, ?_⟩
    refine ih hrest ?_
    rw [List.append_assoc, List.singleton_append]
    simpa using h2

/-- A run of nodes sharing one available parent id satisfies
`ParentsFrom`. -/
theorem parentsFrom_const (pid : String) {l : List RoadmapNode}
    (h : ∀ n ∈ l, n.parent_id = some pid) :
    ∀ {avail : List String}, pid ∈ avail → ParentsFrom avail l := by
  induction l with
  | nil => intro _ _; trivial
  | cons n rest ih =>
    intro avail hpid
    refine ⟨⟨pid, hpid, h n (by simp)⟩, ?_⟩
    exact ih (fun m hm => h m (by simp [hm])) (List.mem_append.mpr
      (Or.inl hpid))

/-- The detail loop numbers its nodes consecutively from `co + 1`. -/
theorem rrParseDetailsGo_orders (divs : List Dom) (pid cat : String) : ∀ co,
    (rrParseDetailsGo divs pid cat co).map RoadmapNode.order =
      List.range' (co + 1) (rrParseDetailsGo divs pid cat co).length := by
  induction divs with
  | nil => intro co; simp [rrParseDetailsGo]
  | cons d rest ih =>
    intro co
    simp only [rrParseDetailsGo]
    split
    · split
      · exact ih co
      · simp only [List.map_cons, List.length_cons]
        rw [List.range'_succ, ih (co + 1)]
    · split
      · simp only [List.map_cons, List.length_cons]
        rw [List.range'_succ, ih (co + 1)]
      · split
        · simp only [List.map_cons, List.length_cons]
          rw [List.range'_succ, ih (co + 1)]
        · exact ih co

/-- Every detail-loop node is a non-root child of the passed parent. -/
theorem rrParseDetailsGo_shape (divs : List Dom) (pid cat : String) : ∀ co,
    ∀ n ∈ rrParseDetailsGo divs pid cat co,
      n.parent_id = some pid ∧ n.node_type ≠ "root" ∧ n.depth ≠ 0 := by
  induction divs with
  | nil => intro co n hn; simp [rrParseDetailsGo] at hn
  | cons d rest ih =>
    intro co n hn
    simp only [rrParseDetailsGo] at hn
    revert hn
    split
    · split
      · intro hn; exact ih co n hn
      · intro hn
        rcases List.mem_cons.mp hn with rfl | hn
        · exact ⟨rfl, by simp, by simp⟩
        · exact ih (co + 1) n hn
    · split
      · intro hn
        rcases List.mem_cons.mp hn with rfl | hn
        · exact ⟨rfl, by simp, by simp⟩
        · exact ih (co + 1) n hn
      · split
        · intro hn
          rcases List.mem_cons.mp hn with rfl | hn
          · exact ⟨rfl, by simp, by simp⟩
          · exact ih (co + 1) n hn
        · intro hn; exact ih co n hn

/-- Orders of the next-sibling details block. -/
theorem rrDetailsOf_orders (rest : List Dom) (sid cat : String) (co : Nat) :
    (rrDetailsOf rest sid cat co).map RoadmapNode.order =
      List.range' (co + 1) (rrDetailsOf rest sid cat co).length := by
  unfold rrDetailsOf
  split
  · split
    · exact rrParseDetailsGo_orders _ sid cat co
    · simp
  · simp

/-- Shape of the next-sibling details block. -/
theorem rrDetailsOf_shape (rest : List Dom) (sid cat : String) (co : Nat) :
    ∀ n ∈ rrDetailsOf rest sid cat co,
      n.parent_id = some sid ∧ n.node_type ≠ "root" ∧ n.depth ≠ 0 := by
  unfold rrDetailsOf
  split
  · split
    · exact rrParseDetailsGo_shape _ sid cat co
    · simp
  · simp

/-- The sub-branch walk numbers its nodes consecutively from `co + 1`. -/
theorem rrParseSubsGo_orders (children : List Dom) (bid cat : String) :
    ∀ co, (rrParseSubsGo children bid cat co).map RoadmapNode.order =
      List.range' (co + 1) (rrParseSubsGo children bid cat co).length := by
  induction children with
  | nil => intro co; simp [rrParseSubsGo]
  | cons d rest ih =>
    intro co
    simp only [rrParseSubsGo]
    split
    · simp only [List.map_cons, List.map_append, List.length_cons,
        List.length_append]
      rw [List.cons_append, rrDetailsOf_orders, ih]
      generalize (rrDetailsOf rest (freshId (co + 1)) cat
        (co + 1)).length = dl
      generalize (rrParseSubsGo rest bid cat (co + 1 + dl)).length = rl
      rw [Nat.add_right_comm (co + 1) dl 1, range'_append_one,
        ← List.range'_succ]
      congr 1
      omega
    · exact ih co

/-- Every sub-branch-walk node is a non-root node with a parent. -/
theorem rrParseSubsGo_shape (children : List Dom) (bid cat : String) :
    ∀ co, ∀ n ∈ rrParseSubsGo children bid cat co,
      n.node_type ≠ "root" ∧ n.depth ≠ 0 ∧ n.parent_id ≠ none := by
  induction children with
  | nil => intro co n hn; simp [rrParseSubsGo] at hn
  | cons d rest ih =>
    intro co n hn
    simp only [rrParseSubsGo] at hn
    revert hn
    split
    · intro hn
      rcases List.mem_cons.mp hn with rfl | hn
      · exact ⟨by simp, by simp, by simp⟩
      rcases List.mem_append.mp hn with hn | hn
      · obtain ⟨hp, ht, hd⟩ := rrDetailsOf_shape rest _ cat (co + 1) n hn
        exact ⟨ht, hd, by simp [hp]⟩
      · exact ih _ n hn
    · intro hn
      exact ih co n hn

/-- Parents emitted by the sub-branch walk are always available: the branch
id for sub nodes, each sub node's id for its details. -/
theorem rrParseSubsGo_parents (children : List Dom) (bid cat : String) :
    ∀ co avail, bid ∈ avail →
      ParentsFrom avail (rrParseSubsGo children bid cat co) := by
  induction children with
  | nil =>
    intro co avail _
    simp only [rrParseSubsGo]
    trivial
  | cons d rest ih =>
    intro co avail hbid
    simp only [rrParseSubsGo]
    split
    · refine ⟨⟨bid, hbid, rfl⟩, ?_⟩
      refine parentsFrom_append ?_ ?_
      · refine parentsFrom_const (freshId (co + 1)) ?_ ?_
        · intro n hn
          exact (rrDetailsOf_shape rest _ cat (co + 1) n hn).1
        · exact List.mem_append.mpr (Or.inr (by simp))
      · refine ih _ _ ?_
        exact List.mem_append.mpr (Or.inl (List.mem_append.mpr
          (Or.inl hbid)))
    · exact ih co avail hbid

/-- Orders of one branch's sub-branch block. -/
theorem rrSubsOf_orders (branch : Dom) (bid cat : String) (co : Nat) :
    (rrSubsOf branch bid cat co).map RoadmapNode.order =
      List.range' (co + 1) (rrSubsOf branch bid cat co).length := by
  unfold rrSubsOf
  split
  · split
    · exact rrParseSubsGo_orders _ bid cat co
    · simp
  · simp

/-- Shape of one branch's sub-branch block. -/
theorem rrSubsOf_shape (branch : Dom) (bid cat : String) (co : Nat) :
    ∀ n ∈ rrSubsOf branch bid cat co,
      n.node_type ≠ "root" ∧ n.depth ≠ 0 ∧ n.parent_id ≠ none := by
  unfold rrSubsOf
  split
  · split
    · exact rrParseSubsGo_shape _ bid cat co
    · simp
  · simp

/-- Parent availability for one branch's sub-branch block. -/
theorem rrSubsOf_parents (branch : Dom) (bid cat : String) (co : Nat)
    (avail : List String) (hbid : bid ∈ avail) :
    ParentsFrom avail (rrSubsOf branch bid cat co) := by
  unfold rrSubsOf
  split
  · split
    · exact rrParseSubsGo_parents _ bid cat co avail hbid
    · trivial
  · trivial

/-- One branch numbers its nodes consecutively from `co + 1`. -/
theorem rrParseBranch_orders (branch : Dom) (rootId : String) (co : Nat) :
    (rrParseBranch branch rootId co).map RoadmapNode.order =
      List.range' (co + 1) (rrParseBranch branch rootId co).length := by
  unfold rrParseBranch
  split
  · simp
  · split
    · simp
    · simp only [List.map_cons, List.length_cons]
      rw [List.range'_succ, rrSubsOf_orders]

/-- Every node of one branch is a non-root node with a parent. -/
theorem rrParseBranch_shape (branch : Dom) (rootId : String) (co : Nat) :
    ∀ n ∈ rrParseBranch branch rootId co,
      n.node_type ≠ "root" ∧ n.depth ≠ 0 ∧ n.parent_id ≠ none := by
  unfold rrParseBranch
  split
  · simp
  · split
    · simp
    · intro n hn
      rcases List.mem_cons.mp hn with rfl | hn
      · exact ⟨by simp, by simp, by simp⟩
      · exact rrSubsOf_shape _ _ _ _ n hn

/-- Parent availability for one branch: the root id for the branch node,
then the ids appended along the way. -/
theorem rrParseBranch_parents (branch : Dom) (rootId : String) (co : Nat)
    (avail : List String) (hroot : rootId ∈ avail) :
    ParentsFrom avail (rrParseBranch branch rootId co) := by
  unfold rrParseBranch
  split
  · trivial
  · split
    · trivial
    · refine ⟨⟨rootId, hroot, rfl⟩, ?_⟩
      exact rrSubsOf_parents _ _ _ _ _ (List.mem_append.mpr (Or.inr
        (by simp)))

/-- The branch loop numbers its nodes consecutively from `co + 1`. -/
theorem rrParseBranchesGo_orders (branches : List Dom) (rootId : String) :
    ∀ co, (rrParseBranchesGo branches rootId co).map RoadmapNode.order =
      List.range' (co + 1) (rrParseBranchesGo branches rootId co).length := by
  induction branches with
  | nil => intro co; simp [rrParseBranchesGo]
  | cons b rest ih =>
    intro co
    simp only [rrParseBranchesGo]
    simp only [List.map_append, List.length_append]
    rw [rrParseBranch_orders, ih]
    generalize (rrParseBranch b rootId co).length = el
    generalize (rrParseBranchesGo rest rootId (co + el)).length = rl
    rw [Nat.add_right_comm co el 1, range'_append_one]

/-- Every branch-loop node is a non-root node with a parent. -/
theorem rrParseBranchesGo_shape (branches : List Dom) (rootId : String) :
    ∀ co, ∀ n ∈ rrParseBranchesGo branches rootId co,
      n.node_type ≠ "root" ∧ n.depth ≠ 0 ∧ n.parent_id ≠ none := by
  induction branches with
  | nil => intro co n hn; simp [rrParseBranchesGo] at hn
  | cons b rest ih =>
    intro co n hn
    simp only [rrParseBranchesGo] at hn
    rcases List.mem_append.mp hn with hn | hn
    · exact rrParseBranch_shape b rootId co n hn
    · exact ih _ n hn

/-- Parent availability for the whole branch loop. -/
theorem rrParseBranchesGo_parents (branches : List Dom) (rootId : String) :
    ∀ co avail, rootId ∈ avail →
      ParentsFrom avail (rrParseBranchesGo branches rootId co) := by
  induction branches with
  | nil =>
    intro co avail _
    simp only [rrParseBranchesGo]
    trivial
  | cons b rest ih =>
    intro co avail hroot
    simp only [rrParseBranchesGo]
    refine parentsFrom_append (rrParseBranch_parents b rootId co avail
      hroot) ?_
    exact ih _ _ (List.mem_append.mpr (Or.inl hroot))

/-- C10: for every input document, `ReactRoadmapParser.parse` returns the
root node first — depth 0, no parent, order 0, the only `root`-typed node —
every later node's `parent_id` is the id of a node appended earlier in the
list, and the non-root orders are exactly 1, 2, 3, ... in append order. -/
theorem react_parse_spec (doc : List Dom) :
    ∃ root tail, react_parse doc = root :: tail ∧
      root.node_type = "root" ∧ root.depth = 0 ∧ root.parent_id = none ∧
      root.order = 0 ∧
      (∀ n ∈ tail, n.node_type ≠ "root" ∧ n.depth ≠ 0 ∧
        n.parent_id ≠ none) ∧
      tail.map RoadmapNode.order = List.range' 1 tail.length ∧
      ParentsFrom [root.id] tail := by
  refine ⟨_, _, rfl, rfl, rfl, rfl, rfl, ?_, ?_, ?_⟩
  · intro n hn
    revert hn
    dsimp only [react_parse]
    split
    · split
      · intro hn
        exact rrParseBranchesGo_shape _ _ 0 n hn
      · intro hn; simp at hn
    · intro hn; simp at hn
  · dsimp only [react_parse]
    split
    · split
      · simpa using rrParseBranchesGo_orders _ _ 0
      · simp
    · simp
  · dsimp only [react_parse]
    split
    · split
      · exact rrParseBranchesGo_parents _ _ 0 _ (by simp)
      · trivial
    · trivial

/-- `html.escape` never emits a raw `<`, `>` or `"` for any input
character. -/
theorem escapeChar_safe (x : Char) :
    (escapeChar x).all (fun c => !(c == '<' || c == '>' || c == '"')) =
      true := by
  by_cases h1 : x = '&'
  · subst h1; decide
  by_cases h2 : x = '<'
  · subst h2; decide
  by_cases h3 : x = '>'
  · subst h3; decide
  by_cases h4 : x = '"'
  · subst h4; decide
  by_cases h5 : x.toNat = 39
  · have hx : escapeChar x = "&#x27;".data := by
      unfold escapeChar
      simp [h1, h2, h3, h4, h5]
    rw [hx]; decide
  · have hx : escapeChar x = [x] := by
      unfold escapeChar
      simp [h1, h2, h3, h4, h5]
    rw [hx]
    simp only [List.all_cons, List.all_nil, Bool.and_true]
    have hlt : (x == '<') = false := by simpa using h2
    have hgt : (x == '>') = false := by simpa using h3
    have hq : (x == '"') = false := by simpa using h4
    simp [hlt, hgt, hq]

set_option maxRecDepth 100000 in
/-- C2 counterexample: the legacy node-tree renderer `generate_roadmap_html`
interpolates `node.content` without escaping — rendering a root with one
detail node whose content is `<script>alert(1)</script>` emits the script
tag verbatim, and no escaped entity at all. -/
theorem legacy_render_unescaped :
    pyIn "<script>alert(1)</script>"
      (generate_roadmap_body [rootW, detailW]) = true ∧
    pyIn "&lt;" (generate_roadmap_body [rootW, detailW]) = false := by
  decide

set_option maxRecDepth 100000 in
/-- C2 amended: `html.escape` output never contains a raw `<`, `>` or `"`
(so every interpolation of `render_search_item` built from escaped text is
injection-free), and the search-path fragment of a chunk whose content is
`<script>alert(1)</script>` carries it only as escaped entities, never as
an executable tag. -/
theorem search_render_escapes :
    (∀ s : String,
      ((htmlEscape s).data.all
        (fun c => !(c == '<' || c == '>' || c == '"'))) = true) ∧
    pyIn "&lt;script&gt;alert(1)&lt;/script&gt;"
      (render_search_item itemW) = true ∧
    pyIn "<script" (render_search_item itemW) = false := by
  refine ⟨?_, by decide, by decide⟩
  intro s
  rw [List.all_eq_true]
  intro c hc
  rcases List.mem_flatMap.mp hc with ⟨x, hx, hcx⟩
  have h := escapeChar_safe x
  rw [List.all_eq_true] at h
  exact h c hcx

end CreateDb
